import Mathlib

/-!
Verification of the persistent-connection IPC provider
(web3/providers/persistent/async_ipc.py) and the persistent-connection
facade (web3/main.py, class _PersistentConnectionWeb3).

The Python source is shallowly embedded:

* The incremental JSON framing done by the message listener
  (json.JSONDecoder().raw_decode) is embedded as a fuel-indexed
  recursive parser over List Char which mirrors the CPython json
  scanner: one top-level value is decoded from the front of the
  buffer, trailing characters are returned as the remainder, leading
  whitespace is rejected.  Numeric tokens are kept as their lexemes
  (Python converts them with int/float; the lexeme determines that
  value, so lexeme equality refines value equality).  String tokens
  keep their raw escape sequences for the same reason.  Objects are
  kept as member lists in parse order; Python folds them into a dict,
  and for the payloads compared in the theorems below the member-list
  representation determines the dict.
* The listener loop body (async_ipc.py lines 215-246) becomes a step
  function on a listener state (accumulated buffer, deposits made into
  the request processor, count of logged errors).
* connect / disconnect / make_request / is_connected become functions
  over an explicit provider state; exceptions become an explicit
  PyExc type threaded through Except.
* Timing (asyncio.wait_for, sleep) is discretised: the response-wait
  loop is indexed by the number of poll iterations that fit in the
  request_timeout window, and backoff delays are recorded as exact
  rationals (the Python floats 1.75 and its products up to the default
  retry counts are exactly representable, so the rational model is
  exact).
* Parts of the repository that the source file calls but that are not
  present (the PersistentConnectionProvider base class, the
  RequestProcessor, generate_cache_key, encode_rpc_request) are
  modelled from the spec; each such definition carries a doc comment
  starting with "Modelled from the spec:".
-/

namespace Web3

/-! ## JSON values, as decoded by the json module -/

/-- Decoded JSON value.  Numbers, and the NaN / Infinity constants the
Python decoder accepts, are represented by their lexemes; strings by
their raw (unescaped) body. -/
inductive Json where
  | null
  | bool (b : Bool)
  | num (lexeme : List Char)
  | str (content : List Char)
  | arr (items : List Json)
  | obj (members : List (List Char × Json))
  deriving Repr

/-- The left brace character, written via its code point so that the
character does not occur literally in the file. -/
def lbrace : Char := '\x7b'

/-- The right brace character. -/
def rbrace : Char := '\x7d'

/-- Whitespace skipped by the json scanner between tokens
(the WHITESPACE regex of json.decoder). -/
def jsonWs (c : Char) : Bool :=
  c = ' ' || c = '\t' || c = '\n' || c = '\r'

/-- Skip json inter-token whitespace. -/
def skipWs : List Char → List Char
  | [] => []
  | c :: rest => if jsonWs c then skipWs rest else c :: rest

/-- ASCII decimal digit test. -/
def isJsonDigit (c : Char) : Bool := '0' ≤ c && c ≤ '9'

/-- Hexadecimal digit test, for the four digits of a backslash-u escape. -/
def isHex (c : Char) : Bool :=
  isJsonDigit c || ('a' ≤ c && c ≤ 'f') || ('A' ≤ c && c ≤ 'F')

/-- Four hex digits from the front of the input, as required after a
backslash-u escape. -/
def hex4Take : List Char → Option (List Char × List Char)
  | h1 :: h2 :: h3 :: h4 :: rest3 =>
    if isHex h1 && isHex h2 && isHex h3 && isHex h4 then
      some ([h1, h2, h3, h4], rest3)
    else none
  | _ => none

/-- Consumed characters of one escape sequence after the backslash: a
single valid escape character, or u and four hex digits.  Mirrors the
escape handling of py_scanstring; an invalid or truncated escape is an
error. -/
def escHead : List Char → Option (List Char × List Char)
  | [] => none
  | d :: rest2 =>
    if d = '"' || d = '\\' || d = '/' || d = 'b' || d = 'f' || d = 'n'
        || d = 'r' || d = 't' then
      some ([d], rest2)
    else if d = 'u' then
      match hex4Take rest2 with
      | some (hs, rest3) => some (d :: hs, rest3)
      | none => none
    else none

/-- Lexer for the body of a JSON string, after the opening quote.
Returns the raw body (escape sequences kept) and the characters after
the closing quote.  Mirrors py_scanstring in strict mode: a raw
control character, an invalid escape, or a truncated input is an
error.  The fuel only bounds the iteration count; every step consumes
at least one character, so any fuel above the input length is
sufficient, and lex_string below supplies such a fuel. -/
def lexString : Nat → List Char → Option (List Char × List Char)
  | 0, _ => none
  | Nat.succ f, s =>
    match s with
    | [] => none
    | c :: rest =>
      if c = '"' then some ([], rest)
      else if c = '\\' then
        match escHead rest with
        | none => none
        | some (consumed, rest2) =>
          match lexString f rest2 with
          | some (b, r) => some (c :: (consumed ++ b), r)
          | none => none
      else if c.toNat < 32 then none
      else
        match lexString f rest with
        | some (b, r) => some (c :: b, r)
        | none => none

/-- The string lexer with sufficient fuel. -/
def lex_string (s : List Char) : Option (List Char × List Char) :=
  lexString (s.length + 1) s

/-- Consume a maximal run of decimal digits. -/
def munchDigits : List Char → (List Char × List Char)
  | [] => ([], [])
  | c :: rest =>
    if isJsonDigit c then
      let (ds, r) := munchDigits rest
      (c :: ds, r)
    else ([], c :: rest)

/-- Unsigned integer part of the NUMBER_RE regex of json.decoder:
0 alone, or a nonzero digit and a maximal digit run. -/
def lexIntNat : List Char → Option (List Char × List Char)
  | [] => none
  | c :: r =>
    if c = '0' then some (['0'], r)
    else if isJsonDigit c then
      let (ds, r2) := munchDigits r
      some (c :: ds, r2)
    else none

/-- Integer part of NUMBER_RE: an optional minus sign, then the
unsigned part. -/
def lexInt : List Char → Option (List Char × List Char)
  | [] => none
  | c :: r =>
    if c = '-' then
      match lexIntNat r with
      | some (ds, r2) => some ('-' :: ds, r2)
      | none => none
    else lexIntNat (c :: r)

/-- After a dot: at least one digit, then a maximal digit run. -/
def lexFracAfterDot : List Char → Option (List Char × List Char)
  | [] => none
  | d :: rest =>
    if isJsonDigit d then
      let (ds, r) := munchDigits rest
      some (d :: ds, r)
    else none

/-- Optional fraction part of NUMBER_RE: a dot followed by at least
one digit; otherwise nothing is consumed. -/
def lexFrac : List Char → (List Char × List Char)
  | [] => ([], [])
  | c :: rest =>
    if c = '.' then
      match lexFracAfterDot rest with
      | some (body, r) => (c :: body, r)
      | none => ([], c :: rest)
    else ([], c :: rest)

/-- After an explicit exponent sign: at least one digit, then a
maximal digit run. -/
def lexExpSign : List Char → Option (List Char × List Char)
  | [] => none
  | d2 :: rest3 =>
    if isJsonDigit d2 then
      let (ds, r) := munchDigits rest3
      some (d2 :: ds, r)
    else none

/-- After the e or E: an optional sign and at least one digit, then a
maximal digit run. -/
def lexExpAfterE : List Char → Option (List Char × List Char)
  | [] => none
  | d :: rest2 =>
    if isJsonDigit d then
      let (ds, r) := munchDigits rest2
      some (d :: ds, r)
    else if d = '+' || d = '-' then
      match lexExpSign rest2 with
      | some (body, r) => some (d :: body, r)
      | none => none
    else none

/-- Optional exponent part of NUMBER_RE: e or E, an optional sign and
at least one digit; otherwise nothing is consumed. -/
def lexExp : List Char → (List Char × List Char)
  | [] => ([], [])
  | c :: rest =>
    if c = 'e' || c = 'E' then
      match lexExpAfterE rest with
      | some (body, r) => (c :: body, r)
      | none => ([], c :: rest)
    else ([], c :: rest)

/-- Number token, as matched by NUMBER_RE of json.decoder. -/
def lexNumber (s : List Char) : Option (Json × List Char) :=
  match lexInt s with
  | none => none
  | some (ip, r1) =>
    let (fp, r2) := lexFrac r1
    let (ep, r3) := lexExp r2
    some (Json.num (ip ++ fp ++ ep), r3)

/-- Match a literal character sequence at the front of the input,
returning what follows it. -/
def matchLit : List Char → List Char → Option (List Char)
  | [], s => some s
  | _ :: _, [] => none
  | p :: ps, c :: cs => if c = p then matchLit ps cs else none

mutual

/-- One top-level JSON value from the front of the input, mirroring
the json module scanner without the leading-whitespace skip (which
raw_decode does not perform).  The fuel argument only bounds recursion
depth; every recursive call is on a strictly shorter list, so any fuel
above twice the input length is sufficient. -/
def parseValue : Nat → List Char → Option (Json × List Char)
  | 0, _ => none
  | Nat.succ f, s =>
    match s with
    | [] => none
    | c :: rest =>
      if c = lbrace then
        match skipWs rest with
        | [] => none
        | c2 :: r2 =>
          if c2 = rbrace then some (Json.obj [], r2)
          else parseMembers f (c2 :: r2) []
      else if c = '[' then
        match skipWs rest with
        | [] => none
        | c2 :: r2 =>
          if c2 = ']' then some (Json.arr [], r2)
          else parseItems f (c2 :: r2) []
      else if c = '"' then
        match lex_string rest with
        | some (content, r) => some (Json.str content, r)
        | none => none
      else if c = 't' then
        match matchLit "rue".data rest with
        | some r => some (Json.bool true, r)
        | none => none
      else if c = 'f' then
        match matchLit "alse".data rest with
        | some r => some (Json.bool false, r)
        | none => none
      else if c = 'n' then
        match matchLit "ull".data rest with
        | some r => some (Json.null, r)
        | none => none
      else if c = 'N' then
        match matchLit "aN".data rest with
        | some r => some (Json.num "NaN".data, r)
        | none => none
      else if c = 'I' then
        match matchLit "nfinity".data rest with
        | some r => some (Json.num "Infinity".data, r)
        | none => none
      else if c = '-' || isJsonDigit c then
        match lexNumber (c :: rest) with
        | some x => some x
        | none =>
          match matchLit "Infinity".data rest with
          | some r => if c = '-' then some (Json.num "-Infinity".data, r) else none
          | none => none
      else none

/-- Members of an object after the opening brace, with whitespace
already skipped and the input known to not start with the closing
brace.  The accumulator holds members already parsed. -/
def parseMembers : Nat → List Char → List (List Char × Json) →
    Option (Json × List Char)
  | 0, _, _ => none
  | Nat.succ f, s, acc =>
    match s with
    | [] => none
    | c :: rest =>
      if c = '"' then
        match lex_string rest with
        | none => none
        | some (key, r1) =>
          match skipWs r1 with
          | [] => none
          | c2 :: r2 =>
            if c2 = ':' then
            match parseValue f (skipWs r2) with
            | none => none
            | some (v, r3) =>
              match skipWs r3 with
              | c4 :: r4 =>
                if c4 = ',' then
                  match skipWs r4 with
                  | [] => none
                  | c5 :: r5 =>
                    if c5 = '"' then parseMembers f (c5 :: r5) (acc ++ [(key, v)])
                    else none
                else if c4 = rbrace then some (Json.obj (acc ++ [(key, v)]), r4)
                else none
              | [] => none
            else none
      else none

/-- Items of an array after the opening bracket, with whitespace
already skipped and the input known to not start with the closing
bracket. -/
def parseItems : Nat → List Char → List Json → Option (Json × List Char)
  | 0, _, _ => none
  | Nat.succ f, s, acc =>
    match parseValue f s with
    | none => none
    | some (v, r1) =>
      match skipWs r1 with
      | c2 :: r2 =>
        if c2 = ',' then parseItems f (skipWs r2) (acc ++ [v])
        else if c2 = ']' then some (Json.arr (acc ++ [v]), r2)
        else none
      | [] => none

end

/-- decoder.raw_decode of the message listener: decode one complete
top-level JSON value from the front of the buffer.  Python returns the
value and the index after it; the model returns the value and the
remaining characters, which is what the listener computes from that
index.  A JSONDecodeError is the none case. -/
def raw_decode (s : List Char) : Option (Json × List Char) :=
  parseValue (2 * s.length + 2) s

/-! ## Python exceptions -/

/-- The Python exceptions that the embedded code can raise or catch.
OSError carries its errno attribute (BrokenPipeError is the OSError
with errno EPIPE); the three ProviderConnectionError shapes carry the
data interpolated into their messages; TimeExhausted carries the
request id and the request_timeout interpolated into its message. -/
inductive PyExc where
  | osError (errNum : Int)
  | provConnNotInitiated
  | provConnRetriesExceeded (endpoint : String) (maxRetries : Nat)
  | provConnWrapped (cause : PyExc)
  | timeExhausted (requestId : Nat) (timeoutSeconds : Nat)
  | cancelledError
  | stopAsyncIterationExc
  | attributeError
  | otherError (tag : Nat)
  deriving DecidableEq, Repr

/-- errno.EPIPE. -/
def EPIPE : Int := 32

/-- Membership in the OSError class (BrokenPipeError is a subclass,
represented by its errno). -/
def isOSError : PyExc → Bool
  | PyExc.osError _ => true
  | _ => false

/-- Membership in the ProviderConnectionError class. -/
def isProviderConnectionError : PyExc → Bool
  | PyExc.provConnNotInitiated => true
  | PyExc.provConnRetriesExceeded _ _ => true
  | PyExc.provConnWrapped _ => true
  | _ => false

/-! ## The message listener (async_ipc.py lines 207-246) -/

/-- Characters stripped by the Python str.lstrip() with no argument:
exactly those for which str.isspace() holds. -/
def pyWsChar (c : Char) : Bool :=
  (9 ≤ c.toNat && c.toNat ≤ 13) || (28 ≤ c.toNat && c.toNat ≤ 32)
    || c.toNat = 133 || c.toNat = 160 || c.toNat = 5760
    || (8192 ≤ c.toNat && c.toNat ≤ 8202) || c.toNat = 8232
    || c.toNat = 8233 || c.toNat = 8239 || c.toNat = 8287
    || c.toNat = 12288

/-- Python str.lstrip(): drop leading whitespace characters. -/
def lstripPy : List Char → List Char
  | [] => []
  | c :: rest => if pyWsChar c then lstripPy rest else c :: rest

/-- Key of the method field inspected by the listener. -/
def methodKey : List Char := "method".data

/-- The eth_subscription marker string. -/
def ethSubscription : List Char := "eth_subscription".data

/-- Python dict lookup on the dict json builds from an object: for a
duplicate key the last occurrence wins. -/
def dictGet (members : List (List Char × Json)) (key : List Char) :
    Option Json :=
  (members.reverse.find? (fun m => m.1 = key)).map (fun m => m.2)

/-- response.get of the listener, line 229: a dict answers the lookup,
any other decoded value has no get attribute and raises
AttributeError. -/
def jsonGetMethod : Json → Except PyExc (Option Json)
  | Json.obj members => Except.ok (dictGet members methodKey)
  | _ => Except.error PyExc.attributeError

/-- is_subscription of line 229: the method field compared with the
eth_subscription literal (False when absent or not that string). -/
def classifySubscription (j : Json) : Except PyExc Bool :=
  match jsonGetMethod j with
  | Except.error e => Except.error e
  | Except.ok m =>
    match m with
    | some (Json.str s) => Except.ok (decide (s = ethSubscription))
    | _ => Except.ok false

/-- Modelled from the spec: cache_raw_response of the Request Processor
(section 4.1) deposits a decoded message, classified by the listener as
a subscription push or a request response.  The listener-level theorems
only need the ordered record of these deposits, so one deposit is the
message together with its classification. -/
structure Deposit where
  response : Json
  subscription : Bool
  deriving Repr

/-- Result of the inner decode loop of the listener (lines 223-233):
deposits made, the buffer left in raw_message, and the exception that
escaped the loop body, if any. -/
structure DrainOut where
  deposits : List Deposit
  buffer : List Char
  exc : Option PyExc
  deriving Repr

/-- The inner while loop of the listener: while the buffer is nonempty,
raw_decode it; a JSONDecodeError breaks out of the loop (the buffer is
kept for the next read); a decoded value is classified and deposited
and the remainder past the decoded value is lstripped back into the
buffer.  An AttributeError from classifying a non-dict value escapes
with the buffer of that moment.  The fuel only bounds the iteration
count; a successful decode consumes at least one character, so fuel
above the buffer length is sufficient. -/
def drainLoop : Nat → List Char → List Deposit → DrainOut
  | 0, buf, acc => ⟨acc, buf, none⟩
  | Nat.succ f, buf, acc =>
    match buf with
    | [] => ⟨acc, [], none⟩
    | c :: rest =>
      match raw_decode (c :: rest) with
      | none => ⟨acc, c :: rest, none⟩
      | some (response, remainder) =>
        match classifySubscription response with
        | Except.error e => ⟨acc, c :: rest, some e⟩
        | Except.ok isSub =>
          drainLoop f (lstripPy remainder) (acc ++ [⟨response, isSub⟩])

/-- Listener loop state: the raw_message accumulation buffer, the
record of deposits into the Request Processor, and the number of
errors logged by the lenient exception handler. -/
structure LState where
  buffer : List Char
  deposits : List Deposit
  errorLogs : Nat
  deriving Repr

/-- What one await of reader.read produced: a chunk of characters, or
an exception (a failed read, or a to_text decode failure). -/
inductive ReadEvent where
  | chunk (s : List Char)
  | readErr (e : PyExc)
  deriving Repr

/-- Outcome of one iteration of the outer listener loop: the loop
continues with a new state, or (strict configuration) every task on
the event loop is cancelled and the exception propagates, ending the
listener. -/
inductive StepOut where
  | cont (st : LState)
  | fatal (e : PyExc) (allTasksCancelled : Bool)
  deriving Repr

/-- One iteration of the outer while loop of the listener (lines
215-246).  A read chunk is lstripped and appended to the buffer, and
the inner decode loop runs.  An exception from the read or from
classification reaches the except handler of line 234: with
silence_listener_task_exceptions false every task on the running event
loop is cancelled and the exception re-raised; with it true the error
is logged and the raw_message buffer is reset to empty, and the loop
continues. -/
def listenerStep (silence : Bool) (st : LState) (ev : ReadEvent) : StepOut :=
  match ev with
  | ReadEvent.readErr e =>
    if !silence then StepOut.fatal e true
    else StepOut.cont ⟨[], st.deposits, st.errorLogs + 1⟩
  | ReadEvent.chunk s =>
    let buf1 := st.buffer ++ lstripPy s
    let d := drainLoop (buf1.length + 1) buf1 []
    match d.exc with
    | none => StepOut.cont ⟨d.buffer, st.deposits ++ d.deposits, st.errorLogs⟩
    | some e =>
      if !silence then StepOut.fatal e true
      else StepOut.cont ⟨[], st.deposits ++ d.deposits, st.errorLogs + 1⟩

/-- Run the listener over a sequence of read chunks, stopping at a
fatal outcome. -/
def runChunks (silence : Bool) : LState → List (List Char) →
    Except PyExc LState
  | st, [] => Except.ok st
  | st, s :: more =>
    match listenerStep silence st (ReadEvent.chunk s) with
    | StepOut.cont st2 => runChunks silence st2 more
    | StepOut.fatal e _ => Except.error e

/-- The empty initial listener state (raw_message starts empty,
line 212). -/
def initialLState : LState := ⟨[], [], 0⟩

/-! ## connect (async_ipc.py lines 97-122) -/

/-- The backoff rate, the Python float literal 1.75 exactly. -/
def backoff_rate_change : ℚ := 7 / 4

/-- The initial backoff time, also the literal 1.75. -/
def initial_backoff_time : ℚ := 7 / 4

/-- Observable outcome of a connect() call against an always-failing
transport: how many connection attempts were made, the successive
sleep durations between attempts, and the exception raised at the
end, if any. -/
structure ConnectTrace where
  attempts : Nat
  delays : List ℚ
  raised : Option PyExc
  deriving DecidableEq, Repr

/-- The while loop of connect() specialised to a transport whose
establishment always raises OSError, the scenario of the claim.  The
loop guard is the counter equality test of line 102; the recursion is
on the remaining iteration count maxRetries - attempts, which the
counter arithmetic of the loop keeps in lockstep with the guard: the
guard fails exactly when remaining is 0, and the final-attempt test of
line 111 succeeds exactly when remaining is 1.  The endpoint_uri
interpolated into the error is inherited from the base class missing
from the sources and is passed as a parameter. -/
def connectIter (endpoint : String) (maxRetries : Nat) :
    Nat → Nat → ℚ → ConnectTrace
  | attemptsDone, 0, _ => ⟨attemptsDone, [], none⟩
  | attemptsDone, Nat.succ rem, backoff =>
    if rem = 0 then
      ⟨attemptsDone + 1, [],
        some (PyExc.provConnRetriesExceeded endpoint maxRetries)⟩
    else
      let t := connectIter endpoint maxRetries (attemptsDone + 1) rem
        (backoff * backoff_rate_change)
      ⟨t.attempts, backoff :: t.delays, t.raised⟩

/-- connect() with an always-failing transport: the loop starts with
zero attempts and the initial backoff time. -/
def connectTrace (endpoint : String) (maxRetries : Nat) : ConnectTrace :=
  connectIter endpoint maxRetries 0 maxRetries initial_backoff_time

/-! ## Provider state, disconnect (lines 124-140), make_request
(lines 147-205), is_connected (lines 86-95) -/

/-- The stream writer, reduced to the is_closing observation disconnect
makes of it. -/
structure Writer where
  isClosing : Bool
  deriving DecidableEq, Repr

/-- State of the listener asyncio task. -/
inductive TaskState where
  | running
  | cancelled
  | doneOk
  | doneErr (e : PyExc)
  deriving DecidableEq, Repr

/-- Modelled from the spec: the two state stores of the Request
Processor (section 3): the response cache keyed by cache key, and the
per-subscription queues. -/
structure ProcessorState where
  responseCache : List (Nat × Json)
  subscriptionQueues : List (List Char × List Json)
  deriving Repr

/-- Modelled from the spec: clear_caches of the Request Processor
(section 4.1) empties both stores. -/
def clear_caches : ProcessorState := ⟨[], []⟩

/-- Provider state touched by the embedded operations.  The
listenerTask attribute is assigned only by connect (line 106); before
any connect it is absent (or None, if the missing base class declares
it so), and either way the attribute access of line 134 fails, which
the model renders as the none case.  requestCounter is the request id
allocator consumed by encode_rpc_request. -/
structure ProviderState where
  writer : Option Writer
  reader : Bool
  listenerTask : Option TaskState
  processor : ProcessorState
  requestCounter : Nat
  deriving Repr

/-- A provider on which connect was never called. -/
def freshProvider : ProviderState :=
  ⟨none, false, none, ⟨[], []⟩, 0⟩

/-- disconnect() (lines 124-140).  First the writer, when present and
not already closing, is closed and dropped.  Then the listener task
attribute is read: absent means AttributeError (uncaught, since only
CancelledError and StopAsyncIteration are).  A present task is
cancelled; awaiting it raises CancelledError (caught, leaving reader
untouched since line 136 sits after the await inside the try) unless
it had already finished: a normal finish returns and reader is
dropped, a finish with an uncaught exception re-raises it, skipping
the cache clearing.  Finally the Request Processor caches are
cleared. -/
def disconnect (st : ProviderState) : Except PyExc ProviderState :=
  let st1 :=
    match st.writer with
    | some w => if !w.isClosing then { st with writer := none } else st
    | none => st
  match st1.listenerTask with
  | none => Except.error PyExc.attributeError
  | some TaskState.running =>
    Except.ok
      { st1 with listenerTask := some TaskState.cancelled, processor := clear_caches }
  | some TaskState.cancelled =>
    Except.ok
      { st1 with listenerTask := some TaskState.cancelled, processor := clear_caches }
  | some TaskState.doneOk =>
    Except.ok { st1 with reader := false, processor := clear_caches }
  | some (TaskState.doneErr e) =>
    if e = PyExc.cancelledError || e = PyExc.stopAsyncIterationExc then
      Except.ok { st1 with processor := clear_caches }
    else Except.error e

/-- Modelled from the spec: encode_rpc_request of the base provider
(absent from the sources) builds the request payload around a fresh id
(section 3: ids unique within the connection, monotonic), so it
consumes the id allocator.  Params are carried opaquely. -/
structure EncodedRequest where
  method : String
  params : List Json
  id : Nat
  deriving Repr

/-- Modelled from the spec: the encoding step of make_request
(line 149): allocate the next id and advance the allocator. -/
def encode_rpc_request (st : ProviderState) (method : String)
    (params : List Json) : EncodedRequest × ProviderState :=
  (⟨method, params, st.requestCounter⟩,
    { st with requestCounter := st.requestCounter + 1 })

/-- Entry of make_request (lines 148-154): encode, then fail when the
writer has never been set.  The result is the raised exception or the
encoded request, the provider state after the entry, and the number of
write calls performed (none on this path). -/
def makeRequestEntry (st : ProviderState) (method : String)
    (params : List Json) :
    Except PyExc EncodedRequest × ProviderState × Nat :=
  let (req, st2) := encode_rpc_request st method params
  match st2.writer with
  | none => (Except.error PyExc.provConnNotInitiated, st2, 0)
  | some _ => (Except.ok req, st2, 0)

/-- Outcome of the write block of make_request: execution proceeded to
the response wait, or an exception propagated; in both cases the
number of write attempts and whether _reset_socket ran are recorded. -/
inductive WritePhase where
  | proceeded (writeAttempts : Nat) (socketReset : Bool)
  | raised (e : PyExc) (writeAttempts : Nat) (socketReset : Bool)
  deriving DecidableEq, Repr

/-- The try/except around the write (lines 156-165), given the outcome
of the first write+drain and of the retried one (none = success).  An
OSError is caught: with errno EPIPE the socket is reset and the write
retried once, and an exception of the retry propagates; with any other
errno nothing further happens and execution falls through to the
response wait.  A non-OSError exception propagates immediately. -/
def makeRequestWrite (first second : Option PyExc) : WritePhase :=
  match first with
  | none => WritePhase.proceeded 1 false
  | some e =>
    match e with
    | PyExc.osError n =>
      if n = EPIPE then
        match second with
        | none => WritePhase.proceeded 2 true
        | some e2 => WritePhase.raised e2 2 true
      else WritePhase.proceeded 1 false
    | _ => WritePhase.raised e 1 false

/-- Modelled from the spec: generate_cache_key derives a stable,
collision-free key from the request id (section 3); collision-freedom
makes it injective on live ids, and the identity is the canonical
injective model. -/
def generate_cache_key (requestId : Nat) : Nat := requestId

/-- Lookup in the response cache (the Python in test on the dict). -/
def cacheLookup (cache : List (Nat × Json)) (k : Nat) : Option Json :=
  (cache.find? (fun e => e.1 == k)).map (fun e => e.2)

/-- Modelled from the spec: pop_raw_response (section 4.1) atomically
removes and returns the entry; this is the cache after the removal. -/
def cachePop (cache : List (Nat × Json)) (k : Nat) : List (Nat × Json) :=
  cache.eraseP (fun e => e.1 == k)

/-- The polling loop of _match_response_id_to_request_id (lines
176-189), discretised: iteration n observes the cache contents cacheAt
n (the listener fills the cache concurrently; the sequence is the
ghost schedule of those fills), and remaining counts the iterations
that still fit in the request_timeout window enforced by
asyncio.wait_for.  Found: the response is popped and returned together
with the cache left behind. -/
def matchResponseLoop (requestId : Nat) (cacheAt : Nat → List (Nat × Json)) :
    Nat → Nat → Option (Json × List (Nat × Json))
  | _, 0 => none
  | n, Nat.succ rem =>
    let cache := cacheAt n
    let key := generate_cache_key requestId
    match cacheLookup cache key with
    | some r => some (r, cachePop cache key)
    | none => matchResponseLoop requestId cacheAt (n + 1) rem

/-- _get_response_for_request_id (lines 172-205): the polling loop
bounded by the timeout; when the budget of polls within
request_timeout is exhausted, asyncio.TimeoutError becomes
TimeExhausted carrying the request id and the request_timeout that
elapsed. -/
def get_response_for_request_id (pollBudget : Nat) (request_timeout : Nat)
    (requestId : Nat) (cacheAt : Nat → List (Nat × Json)) :
    Except PyExc (Json × List (Nat × Json)) :=
  match matchResponseLoop requestId cacheAt 0 pollBudget with
  | some found => Except.ok found
  | none => Except.error (PyExc.timeExhausted requestId request_timeout)

/-- The no-op probe request issued by is_connected (line 88). -/
def is_connected_probe : String × List Json := ("web3_clientVersion", [])

/-- The except clause of is_connected (line 90): OSError,
BrokenPipeError (an OSError subclass), ProviderConnectionError. -/
def caughtByIsConnected (e : PyExc) : Bool :=
  isOSError e || isProviderConnectionError e

/-- is_connected (lines 86-95), given the outcome of the probe
make_request call: success answers True; a caught failure answers
False, or with show_traceback is re-raised wrapped in a
ProviderConnectionError carrying the cause; any other exception
propagates as itself. -/
def is_connected (requestOutcome : Except PyExc Json)
    (show_traceback : Bool) : Except PyExc Bool :=
  match requestOutcome with
  | Except.ok _ => Except.ok true
  | Except.error e =>
    if caughtByIsConnected e then
      if show_traceback then Except.error (PyExc.provConnWrapped e)
      else Except.ok false
    else Except.error e

/-! ## The subscription-iteration facade
(_PersistentConnectionWeb3.__aiter__, main.py lines 567-577) -/

/-- Control state of the async generator object the aiter method
builds. -/
inductive GenState where
  | notStarted
  | suspended
  | finished
  deriving DecidableEq, Repr

/-- Connectivity-related calls the generator body makes on the
provider. -/
inductive AiterAction where
  | probedConnection
  | calledConnect
  deriving DecidableEq, Repr

/-- Events of the async generator protocol: resume (anext), throw an
exception into the suspended yield, or close (the GeneratorExit the
runtime delivers when the generator is being finalised, for instance
after the consuming loop was abandoned). -/
inductive GenEvent where
  | next
  | throwExc (e : PyExc)
  | close
  deriving DecidableEq, Repr

/-- What one protocol event produced: the generator yielded the handle
again (with the provider calls it made on the way), or it finished,
re-raising an exception or not. -/
inductive GenOut where
  | yielded (actions : List AiterAction)
  | stopped (raised : Option PyExc)
  deriving DecidableEq, Repr

/-- Whether an exception is an Exception (and so matched by the except
clause of line 574) rather than a BaseException: GeneratorExit arrives
as the close event, and CancelledError is a BaseException. -/
def isExceptionClass : PyExc → Bool
  | PyExc.cancelledError => false
  | _ => true

/-- The aiter generator (lines 567-577) as a step machine over the
generator protocol.  Starting it runs the connectivity check: the
is_connected probe and, when it answered False, a connect call; then
the first yield.  Each later resume yields again immediately: the
while body restarts with no connectivity action.  An Exception thrown
into the yield is caught by line 574 and the loop continues to the
next yield; a BaseException or a close is not caught and ends the
generator. -/
def aiterStep (connectedNow : Bool) :
    GenState → GenEvent → GenState × GenOut
  | GenState.notStarted, GenEvent.next =>
    let actions := if connectedNow then [AiterAction.probedConnection]
      else [AiterAction.probedConnection, AiterAction.calledConnect]
    (GenState.suspended, GenOut.yielded actions)
  | GenState.suspended, GenEvent.next =>
    (GenState.suspended, GenOut.yielded [])
  | GenState.suspended, GenEvent.throwExc e =>
    if isExceptionClass e then (GenState.suspended, GenOut.yielded [])
    else (GenState.finished, GenOut.stopped (some e))
  | GenState.suspended, GenEvent.close =>
    (GenState.finished, GenOut.stopped none)
  | GenState.notStarted, GenEvent.throwExc e =>
    (GenState.finished, GenOut.stopped (some e))
  | GenState.notStarted, GenEvent.close =>
    (GenState.finished, GenOut.stopped none)
  | GenState.finished, _ =>
    (GenState.finished, GenOut.stopped (some PyExc.stopAsyncIterationExc))

/-! ## Prefix stability of the json scanner

The framing claims need that a value decoded from a buffer is decoded
identically when more bytes are appended to the buffer, provided the
decode did not stop at the end of a numeric token whose lexeme the new
bytes could extend, and that a strict prefix of a fully-consumed
object payload never decodes. -/

theorem skipWs_append {s t r : List Char} {c : Char}
    (h : skipWs s = c :: r) : skipWs (s ++ t) = c :: (r ++ t) := by
  induction s with
  | nil =>
    simp only [skipWs] at h
    cases h
  | cons a s ih =>
    simp only [skipWs] at h ⊢
    by_cases ha : jsonWs a = true
    · simp only [ha, if_true] at h ⊢
      exact ih h
    · simp only [eq_false_of_ne_true ha, if_false] at h ⊢
      cases h
      rfl


theorem matchLit_append {pat s t r : List Char}
    (h : matchLit pat s = some r) :
    matchLit pat (s ++ t) = some (r ++ t) := by
  induction pat generalizing s with
  | nil =>
    simp only [matchLit] at h
    cases h
    rfl
  | cons p ps ih =>
    match s with
    | [] => simp [matchLit] at h
    | c :: cs =>
      simp only [matchLit] at h ⊢
      by_cases hc : c = p
      · simp only [hc, if_pos rfl] at h ⊢
        exact ih h
      · simp [hc] at h

theorem hex4Take_append {s t hs r : List Char}
    (h : hex4Take s = some (hs, r)) :
    hex4Take (s ++ t) = some (hs, r ++ t) := by
  match s with
  | h1 :: h2 :: h3 :: h4 :: rest3 =>
    simp only [hex4Take] at h ⊢
    by_cases hx : (isHex h1 && isHex h2 && isHex h3 && isHex h4) = true
    · simp only [hx, if_pos rfl] at h ⊢
      cases h
      simp [hex4Take, hx]
    · simp [hx] at h
  | [] => simp [hex4Take] at h
  | [h1] => simp [hex4Take] at h
  | [h1, h2] => simp [hex4Take] at h
  | [h1, h2, h3] => simp [hex4Take] at h

theorem escHead_append {s t consumed r : List Char}
    (h : escHead s = some (consumed, r)) :
    escHead (s ++ t) = some (consumed, r ++ t) := by
  match s with
  | [] => simp [escHead] at h
  | d :: rest2 =>
    simp only [List.cons_append]
    simp only [escHead] at h
    split at h
    next hd =>
      cases h
      simp [escHead, hd]
    next hd =>
      split at h
      next hu =>
        subst hu
        split at h
        next hs0 rest3 hhex =>
          cases h
          simp [escHead, hex4Take_append hhex]
        next hhex => cases h
      next hu => cases h

theorem lexString_mono {f : Nat} :
    ∀ {s : List Char} {x : List Char × List Char},
    lexString f s = some x → lexString (f + 1) s = some x := by
  induction f with
  | zero => intro s x h; simp [lexString] at h
  | succ f ih =>
    intro s x h
    match s with
    | [] => simp [lexString] at h
    | c :: rest =>
      simp only [lexString] at h
      split at h
      next hq =>
        cases h
        rw [lexString.eq_3]
        simp [hq]
      next hq =>
        split at h
        next hb =>
          split at h
          next hesc => cases h
          next consumed rest2 hesc =>
            split at h
            next b0 r0 hrec =>
              cases h
              rw [lexString.eq_3]
              simp [hq, hb, hesc, ih hrec]
            next hrec => cases h
        next hb =>
          split at h
          next hctl => cases h
          next hctl =>
            split at h
            next b0 r0 hrec =>
              cases h
              rw [lexString.eq_3]
              simp [hq, hb, hctl, ih hrec]
            next hrec => cases h

theorem lexString_mono_le {f g : Nat} (hfg : f ≤ g) :
    ∀ {s : List Char} {x : List Char × List Char},
    lexString f s = some x → lexString g s = some x := by
  induction g with
  | zero =>
    intro s x h
    have hf0 : f = 0 := Nat.le_zero.mp hfg
    subst hf0
    exact h
  | succ g ih =>
    intro s x h
    rcases Nat.lt_or_ge f (g + 1) with hlt | hge
    · exact lexString_mono (ih (Nat.lt_succ_iff.mp hlt) h)
    · have hfe : f = g + 1 := Nat.le_antisymm hfg hge
      subst hfe
      exact h

theorem lexString_append {f : Nat} :
    ∀ {s t b r : List Char}, lexString f s = some (b, r) →
    lexString f (s ++ t) = some (b, r ++ t) := by
  induction f with
  | zero => intro s t b r h; simp [lexString] at h
  | succ f ih =>
    intro s t b r h
    match s with
    | [] => simp [lexString] at h
    | c :: rest =>
      simp only [List.cons_append]
      simp only [lexString] at h
      split at h
      next hq =>
        cases h
        rw [lexString.eq_3]
        simp [hq]
      next hq =>
        split at h
        next hb =>
          split at h
          next hesc => cases h
          next consumed rest2 hesc =>
            split at h
            next b0 r0 hrec =>
              cases h
              rw [lexString.eq_3]
              simp [hq, hb, escHead_append hesc, ih hrec]
            next hrec => cases h
        next hb =>
          split at h
          next hctl => cases h
          next hctl =>
            split at h
            next b0 r0 hrec =>
              cases h
              rw [lexString.eq_3]
              simp [hq, hb, hctl, ih hrec]
            next hrec => cases h

theorem lex_string_append {s t b r : List Char}
    (h : lex_string s = some (b, r)) :
    lex_string (s ++ t) = some (b, r ++ t) := by
  unfold lex_string at h ⊢
  have h2 : lexString (s.length + 1) (s ++ t) = some (b, r ++ t) :=
    lexString_append h
  exact lexString_mono_le
    (by simp only [List.length_append]; omega) h2

theorem munchDigits_append {s t ds r : List Char} {c : Char}
    (h : munchDigits s = (ds, c :: r)) :
    munchDigits (s ++ t) = (ds, c :: (r ++ t)) := by
  induction s generalizing ds with
  | nil => simp [munchDigits] at h
  | cons a rest ih =>
    simp only [List.cons_append]
    rcases hmr : munchDigits rest with ⟨mds, mr2⟩
    simp only [munchDigits, hmr] at h
    by_cases hd : isJsonDigit a = true
    · simp only [hd, if_true, if_pos] at h
      simp at h
      obtain ⟨rfl, hm2⟩ := h
      subst hm2
      have h2 := ih hmr
      simp [munchDigits, hd, h2]
    · simp [hd] at h
      obtain ⟨rfl, rfl, rfl⟩ := h
      simp [munchDigits, hd]

theorem lexIntNat_append {s t ds r : List Char}
    (h : lexIntNat s = some (ds, r)) (hr : r ≠ []) :
    lexIntNat (s ++ t) = some (ds, r ++ t) := by
  obtain ⟨rc, rr, rfl⟩ := List.exists_cons_of_ne_nil hr
  match s with
  | [] => simp [lexIntNat] at h
  | c :: rest =>
    simp only [List.cons_append]
    simp only [lexIntNat] at h ⊢
    by_cases h0 : c = '0'
    · simp only [h0, if_pos rfl] at h ⊢
      simp at h ⊢
      obtain ⟨rfl, rfl⟩ := h
      exact ⟨rfl, rfl⟩
    · simp only [h0, if_false, if_neg] at h ⊢
      by_cases hd : isJsonDigit c = true
      · simp only [hd, if_true, if_pos] at h ⊢
        rcases hmr : munchDigits rest with ⟨mds, mr2⟩
        simp only [hmr] at h
        simp at h
        obtain ⟨rfl, hm2⟩ := h
        have hmr2 : munchDigits rest = (mds, rc :: rr) := by rw [hmr, hm2]
        have h2 := @munchDigits_append rest t mds rr rc hmr2
        simp [h2]
      · simp [hd] at h

theorem lexInt_append {s t ds r : List Char}
    (h : lexInt s = some (ds, r)) (hr : r ≠ []) :
    lexInt (s ++ t) = some (ds, r ++ t) := by
  match s with
  | [] => simp [lexInt] at h
  | c :: rest =>
    simp only [List.cons_append]
    simp only [lexInt] at h ⊢
    by_cases hm : c = '-'
    · simp only [hm, if_pos rfl] at h ⊢
      match hin : lexIntNat rest with
      | none => rw [hin] at h; cases h
      | some (ds0, r0) =>
        rw [hin] at h
        cases h
        rw [lexIntNat_append hin hr]
        simp
    · simp only [hm, if_false, if_neg] at h ⊢
      exact lexIntNat_append h hr

theorem lexFracAfterDot_append {s t ds r : List Char}
    (h : lexFracAfterDot s = some (ds, r)) (hr : r ≠ []) :
    lexFracAfterDot (s ++ t) = some (ds, r ++ t) := by
  obtain ⟨rc, rr, rfl⟩ := List.exists_cons_of_ne_nil hr
  match s with
  | [] => simp [lexFracAfterDot] at h
  | c :: rest =>
    simp only [List.cons_append]
    simp only [lexFracAfterDot] at h ⊢
    by_cases hd : isJsonDigit c = true
    · simp only [hd, if_true, if_pos] at h ⊢
      rcases hmr : munchDigits rest with ⟨mds, mr2⟩
      simp only [hmr] at h
      simp at h
      obtain ⟨rfl, hm2⟩ := h
      have hmr2 : munchDigits rest = (mds, rc :: rr) := by rw [hmr, hm2]
      have h2 := @munchDigits_append rest t mds rr rc hmr2
      simp [h2]
    · simp [hd] at h

theorem lexExpSign_append {s t ds r : List Char}
    (h : lexExpSign s = some (ds, r)) (hr : r ≠ []) :
    lexExpSign (s ++ t) = some (ds, r ++ t) := by
  obtain ⟨rc, rr, rfl⟩ := List.exists_cons_of_ne_nil hr
  match s with
  | [] => simp [lexExpSign] at h
  | c :: rest =>
    simp only [List.cons_append]
    simp only [lexExpSign] at h ⊢
    by_cases hd : isJsonDigit c = true
    · simp only [hd, if_true, if_pos] at h ⊢
      rcases hmr : munchDigits rest with ⟨mds, mr2⟩
      simp only [hmr] at h
      simp at h
      obtain ⟨rfl, hm2⟩ := h
      have hmr2 : munchDigits rest = (mds, rc :: rr) := by rw [hmr, hm2]
      have h2 := @munchDigits_append rest t mds rr rc hmr2
      simp [h2]
    · simp [hd] at h

theorem lexExpAfterE_append {s t ds r : List Char}
    (h : lexExpAfterE s = some (ds, r)) (hr : r ≠ []) :
    lexExpAfterE (s ++ t) = some (ds, r ++ t) := by
  match s with
  | [] => simp [lexExpAfterE] at h
  | c :: rest =>
    simp only [List.cons_append]
    simp only [lexExpAfterE] at h ⊢
    by_cases hd : isJsonDigit c = true
    · simp only [hd, if_true, if_pos] at h ⊢
      obtain ⟨rc, rr, rfl⟩ := List.exists_cons_of_ne_nil hr
      rcases hmr : munchDigits rest with ⟨mds, mr2⟩
      simp only [hmr] at h
      simp at h
      obtain ⟨rfl, hm2⟩ := h
      have hmr2 : munchDigits rest = (mds, rc :: rr) := by rw [hmr, hm2]
      have h2 := @munchDigits_append rest t mds rr rc hmr2
      simp [h2]
    · simp only [hd, if_false, if_neg] at h ⊢
      by_cases hsign : (c = '+' || c = '-') = true
      · simp only [hsign, if_true, if_pos] at h ⊢
        match hes : lexExpSign rest with
        | none => rw [hes] at h; cases h
        | some (ds0, r0) =>
          rw [hes] at h
          cases h
          rw [lexExpSign_append hes hr]
          simp
      · simp [hsign] at h

/-- Characters that could interact with the tail of a numeric token:
when the remainder after a decoded number starts with none of these,
appending input cannot change how the number was lexed. -/
def numSensitive (c : Char) : Bool :=
  c = '.' || c = 'e' || c = 'E' || c = '+' || c = '-' || isJsonDigit c

theorem lexNumber_shape {s r : List Char} {v : Json}
    (h : lexNumber s = some (v, r)) : ∃ lex, v = Json.num lex := by
  unfold lexNumber at h
  match hI : lexInt s with
  | none => rw [hI] at h; cases h
  | some (ip, r1) =>
    rw [hI] at h
    rcases hfr : lexFrac r1 with ⟨fp, r2⟩
    rcases hex : lexExp r2 with ⟨ep, r3⟩
    simp only [hfr, hex] at h
    cases h
    exact ⟨ip ++ fp ++ ep, rfl⟩

theorem lexNumber_append {s t rr : List Char} {rc : Char} {v : Json}
    (h : lexNumber s = some (v, rc :: rr))
    (hsen : numSensitive rc = false) :
    lexNumber (s ++ t) = some (v, rc :: (rr ++ t)) := by
  unfold lexNumber at h ⊢
  match hI : lexInt s with
  | none => rw [hI] at h; cases h
  | some (ip, r1) =>
    rw [hI] at h
    rcases hfr : lexFrac r1 with ⟨fp, r2⟩
    rcases hex : lexExp r2 with ⟨ep, r3⟩
    simp only [hfr, hex] at h
    injection h with h1
    rw [Prod.mk.injEq] at h1
    obtain ⟨hv, hr3⟩ := h1
    subst hv
    subst hr3
    have hr2ne : r2 ≠ [] := by
      intro he
      rw [he] at hex
      simp [lexExp] at hex
    have hr1ne : r1 ≠ [] := by
      intro he
      rw [he] at hfr
      simp [lexFrac] at hfr
      exact hr2ne hfr.2
    obtain ⟨b, r2', rfl⟩ := List.exists_cons_of_ne_nil hr2ne
    obtain ⟨a, r1', rfl⟩ := List.exists_cons_of_ne_nil hr1ne
    have hInt := @lexInt_append _ t _ _ hI hr1ne
    rw [hInt]
    simp only [List.cons_append]
    have hFr : lexFrac (a :: (r1' ++ t)) = (fp, b :: (r2' ++ t)) := by
      by_cases ha : a = '.'
      · subst ha
        match hfad : lexFracAfterDot r1' with
        | some (body, rf) =>
          simp [lexFrac, hfad] at hfr
          obtain ⟨hfp, hrf⟩ := hfr
          subst hfp
          subst hrf
          simp [lexFrac, @lexFracAfterDot_append r1' t body _ hfad (by simp)]
        | none =>
          simp [lexFrac, hfad] at hfr
          obtain ⟨hfp, hb, hr2⟩ := hfr
          subst hb
          rw [← hr2] at hex
          simp [lexExp] at hex
          obtain ⟨hep, hrc, hrr⟩ := hex
          subst hrc
          simp [numSensitive] at hsen
      · simp [lexFrac, ha] at hfr ⊢
        obtain ⟨hfp, hb, hr2⟩ := hfr
        subst hfp
        subst hb
        subst hr2
        exact ⟨rfl, rfl, rfl⟩
    simp only [hFr]
    have hEx : lexExp (b :: (r2' ++ t)) = (ep, rc :: (rr ++ t)) := by
      by_cases hbe : (b = 'e' || b = 'E') = true
      · match hafe : lexExpAfterE r2' with
        | some (body, rx) =>
          simp [lexExp, hbe, hafe] at hex
          obtain ⟨hep, hrx⟩ := hex
          subst hep
          subst hrx
          simp [lexExp, hbe, @lexExpAfterE_append r2' t body _ hafe (by simp)]
        | none =>
          simp [lexExp, hbe, hafe] at hex
          obtain ⟨hep, hrc, hrr⟩ := hex
          subst hrc
          rcases Bool.or_eq_true_iff.mp hbe with hb1 | hb2
          · rw [show b = 'e' by simpa using hb1] at hsen
            simp [numSensitive] at hsen
          · rw [show b = 'E' by simpa using hb2] at hsen
            simp [numSensitive] at hsen
      · simp [lexExp, hbe] at hex ⊢
        obtain ⟨hep, hrc, hrr⟩ := hex
        subst hep
        subst hrc
        subst hrr
        exact ⟨rfl, rfl, rfl⟩
    simp only [hEx]

theorem parse_mono_all : ∀ f : Nat,
    (∀ s x, parseValue f s = some x → parseValue (f + 1) s = some x)
    ∧ (∀ s acc x, parseMembers f s acc = some x →
        parseMembers (f + 1) s acc = some x)
    ∧ (∀ s acc x, parseItems f s acc = some x →
        parseItems (f + 1) s acc = some x) := by
  intro f
  induction f with
  | zero =>
    refine ⟨?_, ?_, ?_⟩
    · intro s x h; simp [parseValue] at h
    · intro s acc x h; simp [parseMembers] at h
    · intro s acc x h; simp [parseItems] at h
  | succ f ih =>
    obtain ⟨ihv, ihm, ihi⟩ := ih
    refine ⟨?_, ?_, ?_⟩
    · intro s x h
      match s with
      | [] => simp [parseValue] at h
      | c :: rest =>
        simp only [parseValue] at h
        by_cases hc1 : c = lbrace
        · rw [if_pos hc1] at h
          match hskip : skipWs rest with
          | [] => simp only [hskip] at h; cases h
          | c2 :: r2 =>
            simp only [hskip] at h
            by_cases hc2 : c2 = rbrace
            · rw [if_pos hc2] at h
              cases h
              rw [parseValue.eq_3, if_pos hc1]
              simp only [hskip]
              rw [if_pos hc2]
            · rw [if_neg hc2] at h
              rw [parseValue.eq_3, if_pos hc1]
              simp only [hskip]
              rw [if_neg hc2]
              exact ihm _ _ _ h
        · rw [if_neg hc1] at h
          by_cases hc2 : c = '['
          · rw [if_pos hc2] at h
            match hskip : skipWs rest with
            | [] => simp only [hskip] at h; cases h
            | c2 :: r2 =>
              simp only [hskip] at h
              by_cases hc3 : c2 = ']'
              · rw [if_pos hc3] at h
                cases h
                rw [parseValue.eq_3, if_neg hc1, if_pos hc2]
                simp only [hskip]
                rw [if_pos hc3]
              · rw [if_neg hc3] at h
                rw [parseValue.eq_3, if_neg hc1, if_pos hc2]
                simp only [hskip]
                rw [if_neg hc3]
                exact ihi _ _ _ h
          · rw [if_neg hc2] at h
            by_cases hc3 : c = '"'
            · rw [if_pos hc3] at h
              match hlex : lex_string rest with
              | some (content, r) =>
                simp only [hlex] at h
                cases h
                rw [parseValue.eq_3, if_neg hc1, if_neg hc2, if_pos hc3]
                simp only [hlex]
              | none => simp only [hlex] at h; cases h
            · rw [if_neg hc3] at h
              by_cases hc4 : c = 't'
              · rw [if_pos hc4] at h
                match hml : matchLit "rue".data rest with
                | some r =>
                  simp only [hml] at h
                  cases h
                  rw [parseValue.eq_3, if_neg hc1, if_neg hc2, if_neg hc3,
                    if_pos hc4]
                  simp only [hml]
                | none => simp only [hml] at h; cases h
              · rw [if_neg hc4] at h
                by_cases hc5 : c = 'f'
                · rw [if_pos hc5] at h
                  match hml : matchLit "alse".data rest with
                  | some r =>
                    simp only [hml] at h
                    cases h
                    rw [parseValue.eq_3, if_neg hc1, if_neg hc2, if_neg hc3,
                      if_neg hc4, if_pos hc5]
                    simp only [hml]
                  | none => simp only [hml] at h; cases h
                · rw [if_neg hc5] at h
                  by_cases hc6 : c = 'n'
                  · rw [if_pos hc6] at h
                    match hml : matchLit "ull".data rest with
                    | some r =>
                      simp only [hml] at h
                      cases h
                      rw [parseValue.eq_3, if_neg hc1, if_neg hc2, if_neg hc3,
                        if_neg hc4, if_neg hc5, if_pos hc6]
                      simp only [hml]
                    | none => simp only [hml] at h; cases h
                  · rw [if_neg hc6] at h
                    by_cases hc7 : c = 'N'
                    · rw [if_pos hc7] at h
                      match hml : matchLit "aN".data rest with
                      | some r =>
                        simp only [hml] at h
                        cases h
                        rw [parseValue.eq_3, if_neg hc1, if_neg hc2,
                          if_neg hc3, if_neg hc4, if_neg hc5, if_neg hc6,
                          if_pos hc7]
                        simp only [hml]
                      | none => simp only [hml] at h; cases h
                    · rw [if_neg hc7] at h
                      by_cases hc8 : c = 'I'
                      · rw [if_pos hc8] at h
                        match hml : matchLit "nfinity".data rest with
                        | some r =>
                          simp only [hml] at h
                          cases h
                          rw [parseValue.eq_3, if_neg hc1, if_neg hc2,
                            if_neg hc3, if_neg hc4, if_neg hc5, if_neg hc6,
                            if_neg hc7, if_pos hc8]
                          simp only [hml]
                        | none => simp only [hml] at h; cases h
                      · rw [if_neg hc8] at h
                        by_cases hc9 : (c = '-' || isJsonDigit c) = true
                        · rw [if_pos hc9] at h
                          match hnum : lexNumber (c :: rest) with
                          | some x0 =>
                            simp only [hnum] at h
                            cases h
                            rw [parseValue.eq_3, if_neg hc1, if_neg hc2,
                              if_neg hc3, if_neg hc4, if_neg hc5, if_neg hc6,
                              if_neg hc7, if_neg hc8, if_pos hc9]
                            simp only [hnum]
                          | none =>
                            simp only [hnum] at h
                            match hml : matchLit "Infinity".data rest with
                            | some r0 =>
                              simp only [hml] at h
                              by_cases hcm : c = '-'
                              · rw [if_pos hcm] at h
                                cases h
                                rw [parseValue.eq_3, if_neg hc1, if_neg hc2,
                                  if_neg hc3, if_neg hc4, if_neg hc5,
                                  if_neg hc6, if_neg hc7, if_neg hc8,
                                  if_pos hc9]
                                simp only [hnum, hml]
                                rw [if_pos hcm]
                              · rw [if_neg hcm] at h
                                cases h
                            | none => simp only [hml] at h; cases h
                        · rw [if_neg hc9] at h
                          cases h
    · intro s acc x h
      match s with
      | [] => simp [parseMembers] at h
      | c :: rest =>
        simp only [parseMembers] at h
        by_cases hc : c = '"'
        · rw [if_pos hc] at h
          match hlex : lex_string rest with
          | none => simp only [hlex] at h; cases h
          | some (key, r1) =>
            simp only [hlex] at h
            match hskip : skipWs r1 with
            | [] => simp only [hskip] at h; cases h
            | c2 :: r2 =>
              simp only [hskip] at h
              by_cases hcol : c2 = ':'
              · rw [if_pos hcol] at h
                match hval : parseValue f (skipWs r2) with
                | none => simp only [hval] at h; cases h
                | some (v, r3) =>
                  simp only [hval] at h
                  match hskip3 : skipWs r3 with
                  | [] => simp only [hskip3] at h; cases h
                  | c4 :: r4 =>
                    simp only [hskip3] at h
                    by_cases hc4 : c4 = ','
                    · rw [if_pos hc4] at h
                      match hskip4 : skipWs r4 with
                      | [] => simp only [hskip4] at h; cases h
                      | c5 :: r5 =>
                        simp only [hskip4] at h
                        by_cases hc5 : c5 = '"'
                        · rw [if_pos hc5] at h
                          rw [parseMembers.eq_3, if_pos hc]
                          simp only [hlex, hskip]
                          rw [if_pos hcol]
                          simp only [ihv _ _ hval, hskip3]
                          rw [if_pos hc4]
                          simp only [hskip4]
                          rw [if_pos hc5]
                          exact ihm _ _ _ h
                        · rw [if_neg hc5] at h
                          cases h
                    · rw [if_neg hc4] at h
                      by_cases hc4b : c4 = rbrace
                      · rw [if_pos hc4b] at h
                        cases h
                        rw [parseMembers.eq_3, if_pos hc]
                        simp only [hlex, hskip]
                        rw [if_pos hcol]
                        simp only [ihv _ _ hval, hskip3]
                        rw [if_neg hc4, if_pos hc4b]
                      · rw [if_neg hc4b] at h
                        cases h
              · rw [if_neg hcol] at h
                cases h
        · rw [if_neg hc] at h
          cases h
    · intro s acc x h
      simp only [parseItems] at h
      match hval : parseValue f s with
      | none => simp only [hval] at h; cases h
      | some (v, r1) =>
        simp only [hval] at h
        match hskip : skipWs r1 with
        | [] => simp only [hskip] at h; cases h
        | c2 :: r2 =>
          simp only [hskip] at h
          by_cases hc2 : c2 = ','
          · rw [if_pos hc2] at h
            rw [parseItems.eq_2]
            simp only [ihv _ _ hval, hskip]
            rw [if_pos hc2]
            exact ihi _ _ _ h
          · rw [if_neg hc2] at h
            by_cases hc2b : c2 = ']'
            · rw [if_pos hc2b] at h
              cases h
              rw [parseItems.eq_2]
              simp only [ihv _ _ hval, hskip]
              rw [if_neg hc2, if_pos hc2b]
            · rw [if_neg hc2b] at h
              cases h

theorem parseValue_mono_le {f g : Nat} (hfg : f ≤ g) {s : List Char}
    {x : Json × List Char} (h : parseValue f s = some x) :
    parseValue g s = some x := by
  induction hfg with
  | refl => exact h
  | step _ ih => exact (parse_mono_all _).1 _ _ ih

/-- The guard under which a decoded value extends past appended input:
a numeric value must be followed by a remainder whose head cannot
continue the numeric lexeme. -/
def numGuard (v : Json) (r : List Char) : Prop :=
  ∀ lex, v = Json.num lex →
    ∃ rc rr, r = rc :: rr ∧ numSensitive rc = false

theorem jsonWs_not_sensitive {a : Char} (h : jsonWs a = true) :
    numSensitive a = false := by
  have h2 : ((a = ' ' ∨ a = '\t') ∨ a = '\n') ∨ a = '\r' := by
    simpa [jsonWs] using h
  rcases h2 with ((rfl | rfl) | rfl) | rfl <;> rfl

theorem skipWs_head_not_sensitive {r r4 : List Char} {c : Char}
    (h : skipWs r = c :: r4) (hsen : numSensitive c = false) :
    ∃ rc rr, r = rc :: rr ∧ numSensitive rc = false := by
  match r with
  | [] => simp [skipWs] at h
  | a :: as =>
    by_cases hws : jsonWs a = true
    · exact ⟨a, as, rfl, jsonWs_not_sensitive hws⟩
    · refine ⟨a, as, rfl, ?_⟩
      simp only [skipWs, hws, if_false, if_neg] at h
      injection h with h1 h2
      rw [h1]
      exact hsen

theorem matchLit_head {p : Char} {ps s r : List Char}
    (h : matchLit (p :: ps) s = some r) : ∃ s2, s = p :: s2 := by
  match s with
  | [] => simp [matchLit] at h
  | c :: cs =>
    simp only [matchLit] at h
    by_cases hc : c = p
    · exact ⟨cs, by rw [hc]⟩
    · rw [if_neg hc] at h; cases h

theorem parseMembers_obj : ∀ (f : Nat) (s : List Char)
    (acc : List (List Char × Json)) (v : Json) (r : List Char),
    parseMembers f s acc = some (v, r) → ∃ ms, v = Json.obj ms := by
  intro f
  induction f with
  | zero => intro s acc v r h; simp [parseMembers] at h
  | succ f ih =>
    intro s acc v r h
    match s with
    | [] => simp [parseMembers] at h
    | c :: rest =>
      simp only [parseMembers] at h
      by_cases hc : c = '"'
      · rw [if_pos hc] at h
        match hlex : lex_string rest with
        | none => simp only [hlex] at h; cases h
        | some (key, r1) =>
          simp only [hlex] at h
          match hskip : skipWs r1 with
          | [] => simp only [hskip] at h; cases h
          | c2 :: r2 =>
            simp only [hskip] at h
            by_cases hcol : c2 = ':'
            · rw [if_pos hcol] at h
              match hval : parseValue f (skipWs r2) with
              | none => simp only [hval] at h; cases h
              | some (v0, r3) =>
                simp only [hval] at h
                match hskip3 : skipWs r3 with
                | [] => simp only [hskip3] at h; cases h
                | c4 :: r4 =>
                  simp only [hskip3] at h
                  by_cases hc4 : c4 = ','
                  · rw [if_pos hc4] at h
                    match hskip4 : skipWs r4 with
                    | [] => simp only [hskip4] at h; cases h
                    | c5 :: r5 =>
                      simp only [hskip4] at h
                      by_cases hc5 : c5 = '"'
                      · rw [if_pos hc5] at h
                        exact ih _ _ _ _ h
                      · rw [if_neg hc5] at h; cases h
                  · rw [if_neg hc4] at h
                    by_cases hc4b : c4 = rbrace
                    · rw [if_pos hc4b] at h
                      cases h
                      exact ⟨_, rfl⟩
                    · rw [if_neg hc4b] at h; cases h
            · rw [if_neg hcol] at h; cases h
      · rw [if_neg hc] at h; cases h

theorem parseItems_arr : ∀ (f : Nat) (s : List Char) (acc : List Json)
    (v : Json) (r : List Char),
    parseItems f s acc = some (v, r) → ∃ xs, v = Json.arr xs := by
  intro f
  induction f with
  | zero => intro s acc v r h; simp [parseItems] at h
  | succ f ih =>
    intro s acc v r h
    simp only [parseItems] at h
    match hval : parseValue f s with
    | none => simp only [hval] at h; cases h
    | some (v0, r1) =>
      simp only [hval] at h
      match hskip : skipWs r1 with
      | [] => simp only [hskip] at h; cases h
      | c2 :: r2 =>
        simp only [hskip] at h
        by_cases hc2 : c2 = ','
        · rw [if_pos hc2] at h
          exact ih _ _ _ _ h
        · rw [if_neg hc2] at h
          by_cases hc2b : c2 = ']'
          · rw [if_pos hc2b] at h
            cases h
            exact ⟨_, rfl⟩
          · rw [if_neg hc2b] at h; cases h

theorem parseValue_nil (f : Nat) : parseValue f [] = none := by
  cases f <;> simp [parseValue]

theorem parseItems_nil (f : Nat) (acc : List Json) :
    parseItems f [] acc = none := by
  cases f with
  | zero => simp [parseItems]
  | succ g => simp [parseItems, parseValue_nil]

theorem parse_append_all : ∀ f : Nat,
    (∀ s t v r, parseValue f s = some (v, r) → numGuard v r →
        parseValue f (s ++ t) = some (v, r ++ t))
    ∧ (∀ s acc t v r, parseMembers f s acc = some (v, r) →
        parseMembers f (s ++ t) acc = some (v, r ++ t))
    ∧ (∀ s acc t v r, parseItems f s acc = some (v, r) →
        parseItems f (s ++ t) acc = some (v, r ++ t)) := by
  intro f
  induction f with
  | zero =>
    refine ⟨?_, ?_, ?_⟩
    · intro s t v r h _; simp [parseValue] at h
    · intro s acc t v r h; simp [parseMembers] at h
    · intro s acc t v r h; simp [parseItems] at h
  | succ f ih =>
    obtain ⟨ihv, ihm, ihi⟩ := ih
    refine ⟨?_, ?_, ?_⟩
    · intro s t v r h hg
      match s with
      | [] => simp [parseValue] at h
      | c :: rest =>
        simp only [List.cons_append]
        simp only [parseValue] at h
        by_cases hc1 : c = lbrace
        · rw [if_pos hc1] at h
          match hskip : skipWs rest with
          | [] => simp only [hskip] at h; cases h
          | c2 :: r2 =>
            simp only [hskip] at h
            by_cases hc2 : c2 = rbrace
            · rw [if_pos hc2] at h
              cases h
              rw [parseValue.eq_3, if_pos hc1]
              simp only [skipWs_append hskip]
              rw [if_pos hc2]
            · rw [if_neg hc2] at h
              have hm2 := ihm _ [] t _ _ h
              simp only [List.cons_append] at hm2
              rw [parseValue.eq_3, if_pos hc1]
              simp only [skipWs_append hskip]
              rw [if_neg hc2]
              exact hm2
        · rw [if_neg hc1] at h
          by_cases hc2 : c = '['
          · rw [if_pos hc2] at h
            match hskip : skipWs rest with
            | [] => simp only [hskip] at h; cases h
            | c2 :: r2 =>
              simp only [hskip] at h
              by_cases hc3 : c2 = ']'
              · rw [if_pos hc3] at h
                cases h
                rw [parseValue.eq_3, if_neg hc1, if_pos hc2]
                simp only [skipWs_append hskip]
                rw [if_pos hc3]
              · rw [if_neg hc3] at h
                have hi2 := ihi _ [] t _ _ h
                simp only [List.cons_append] at hi2
                rw [parseValue.eq_3, if_neg hc1, if_pos hc2]
                simp only [skipWs_append hskip]
                rw [if_neg hc3]
                exact hi2
          · rw [if_neg hc2] at h
            by_cases hc3 : c = '"'
            · rw [if_pos hc3] at h
              match hlex : lex_string rest with
              | some (content, r0) =>
                simp only [hlex] at h
                cases h
                rw [parseValue.eq_3, if_neg hc1, if_neg hc2, if_pos hc3]
                simp only [lex_string_append hlex]
              | none => simp only [hlex] at h; cases h
            · rw [if_neg hc3] at h
              by_cases hc4 : c = 't'
              · rw [if_pos hc4] at h
                match hml : matchLit "rue".data rest with
                | some r0 =>
                  simp only [hml] at h
                  cases h
                  rw [parseValue.eq_3, if_neg hc1, if_neg hc2, if_neg hc3,
                    if_pos hc4]
                  simp only [matchLit_append hml]
                | none => simp only [hml] at h; cases h
              · rw [if_neg hc4] at h
                by_cases hc5 : c = 'f'
                · rw [if_pos hc5] at h
                  match hml : matchLit "alse".data rest with
                  | some r0 =>
                    simp only [hml] at h
                    cases h
                    rw [parseValue.eq_3, if_neg hc1, if_neg hc2, if_neg hc3,
                      if_neg hc4, if_pos hc5]
                    simp only [matchLit_append hml]
                  | none => simp only [hml] at h; cases h
                · rw [if_neg hc5] at h
                  by_cases hc6 : c = 'n'
                  · rw [if_pos hc6] at h
                    match hml : matchLit "ull".data rest with
                    | some r0 =>
                      simp only [hml] at h
                      cases h
                      rw [parseValue.eq_3, if_neg hc1, if_neg hc2, if_neg hc3,
                        if_neg hc4, if_neg hc5, if_pos hc6]
                      simp only [matchLit_append hml]
                    | none => simp only [hml] at h; cases h
                  · rw [if_neg hc6] at h
                    by_cases hc7 : c = 'N'
                    · rw [if_pos hc7] at h
                      match hml : matchLit "aN".data rest with
                      | some r0 =>
                        simp only [hml] at h
                        cases h
                        rw [parseValue.eq_3, if_neg hc1, if_neg hc2,
                          if_neg hc3, if_neg hc4, if_neg hc5, if_neg hc6,
                          if_pos hc7]
                        simp only [matchLit_append hml]
                      | none => simp only [hml] at h; cases h
                    · rw [if_neg hc7] at h
                      by_cases hc8 : c = 'I'
                      · rw [if_pos hc8] at h
                        match hml : matchLit "nfinity".data rest with
                        | some r0 =>
                          simp only [hml] at h
                          cases h
                          rw [parseValue.eq_3, if_neg hc1, if_neg hc2,
                            if_neg hc3, if_neg hc4, if_neg hc5, if_neg hc6,
                            if_neg hc7, if_pos hc8]
                          simp only [matchLit_append hml]
                        | none => simp only [hml] at h; cases h
                      · rw [if_neg hc8] at h
                        by_cases hc9 : (c = '-' || isJsonDigit c) = true
                        · rw [if_pos hc9] at h
                          match hnum : lexNumber (c :: rest) with
                          | some (v0, r0) =>
                            simp only [hnum] at h
                            cases h
                            obtain ⟨lex0, hlex0⟩ := lexNumber_shape hnum
                            obtain ⟨rc, rr, hr0, hsen⟩ := hg lex0 hlex0
                            subst hr0
                            have happ := @lexNumber_append _ t _ _ _ hnum hsen
                            simp only [List.cons_append] at happ
                            rw [parseValue.eq_3, if_neg hc1, if_neg hc2,
                              if_neg hc3, if_neg hc4, if_neg hc5, if_neg hc6,
                              if_neg hc7, if_neg hc8, if_pos hc9]
                            simp only [happ, List.cons_append]
                          | none =>
                            simp only [hnum] at h
                            match hml : matchLit "Infinity".data rest with
                            | some r0 =>
                              simp only [hml] at h
                              by_cases hcm : c = '-'
                              · rw [if_pos hcm] at h
                                cases h
                                obtain ⟨rest2, hrest2⟩ := matchLit_head hml
                                subst hrest2
                                subst hcm
                                have hnone2 : lexNumber
                                    ('-' :: ('I' :: rest2 ++ t)) = none := by
                                  simp [lexNumber, lexInt, lexIntNat,
                                    isJsonDigit]
                                rw [parseValue.eq_3, if_neg hc1, if_neg hc2,
                                  if_neg hc3, if_neg hc4, if_neg hc5,
                                  if_neg hc6, if_neg hc7, if_neg hc8,
                                  if_pos hc9]
                                have hml2 :=
                                  @matchLit_append "Infinity".data
                                    ('I' :: rest2) t r hml
                                simp only [List.cons_append] at hnone2 hml2 ⊢
                                simp only [hnone2, hml2]
                                simp
                              · rw [if_neg hcm] at h
                                cases h
                            | none => simp only [hml] at h; cases h
                        · rw [if_neg hc9] at h
                          cases h
    · intro s acc t v r h
      match s with
      | [] => simp [parseMembers] at h
      | c :: rest =>
        simp only [List.cons_append]
        simp only [parseMembers] at h
        by_cases hc : c = '"'
        · rw [if_pos hc] at h
          match hlex : lex_string rest with
          | none => simp only [hlex] at h; cases h
          | some (key, r1) =>
            simp only [hlex] at h
            match hskip : skipWs r1 with
            | [] => simp only [hskip] at h; cases h
            | c2 :: r2 =>
              simp only [hskip] at h
              by_cases hcol : c2 = ':'
              · rw [if_pos hcol] at h
                match hval : parseValue f (skipWs r2) with
                | none => simp only [hval] at h; cases h
                | some (v0, r3) =>
                  simp only [hval] at h
                  match hskipr2 : skipWs r2 with
                  | [] =>
                    rw [hskipr2, parseValue_nil] at hval
                    cases hval
                  | d :: dr =>
                    rw [hskipr2] at hval
                    match hskip3 : skipWs r3 with
                    | [] => simp only [hskip3] at h; cases h
                    | c4 :: r4 =>
                      simp only [hskip3] at h
                      by_cases hc4 : c4 = ','
                      · rw [if_pos hc4] at h
                        match hskip4 : skipWs r4 with
                        | [] => simp only [hskip4] at h; cases h
                        | c5 :: r5 =>
                          simp only [hskip4] at h
                          by_cases hc5 : c5 = '"'
                          · rw [if_pos hc5] at h
                            have hg0 : numGuard v0 r3 := by
                              intro lex hv
                              refine skipWs_head_not_sensitive hskip3 ?_
                              rw [hc4]
                              rfl
                            have hvapp := ihv _ t _ _ hval hg0
                            simp only [List.cons_append] at hvapp
                            have hmapp := ihm _ (acc ++ [(key, v0)]) t _ _ h
                            simp only [List.cons_append] at hmapp
                            rw [parseMembers.eq_3, if_pos hc]
                            simp only [lex_string_append hlex]
                            simp only [skipWs_append hskip]
                            rw [if_pos hcol]
                            simp only [skipWs_append hskipr2]
                            simp only [hvapp]
                            simp only [skipWs_append hskip3]
                            rw [if_pos hc4]
                            simp only [skipWs_append hskip4]
                            rw [if_pos hc5]
                            exact hmapp
                          · rw [if_neg hc5] at h
                            cases h
                      · rw [if_neg hc4] at h
                        by_cases hc4b : c4 = rbrace
                        · rw [if_pos hc4b] at h
                          cases h
                          have hg0 : numGuard v0 r3 := by
                            intro lex hv
                            refine skipWs_head_not_sensitive hskip3 ?_
                            rw [hc4b]
                            rfl
                          have hvapp := ihv _ t _ _ hval hg0
                          simp only [List.cons_append] at hvapp
                          rw [parseMembers.eq_3, if_pos hc]
                          simp only [lex_string_append hlex]
                          simp only [skipWs_append hskip]
                          rw [if_pos hcol]
                          simp only [skipWs_append hskipr2]
                          simp only [hvapp]
                          simp only [skipWs_append hskip3]
                          rw [if_neg hc4, if_pos hc4b]
                        · rw [if_neg hc4b] at h
                          cases h
              · rw [if_neg hcol] at h
                cases h
        · rw [if_neg hc] at h
          cases h
    · intro s acc t v r h
      simp only [parseItems] at h
      match hval : parseValue f s with
      | none => simp only [hval] at h; cases h
      | some (v0, r1) =>
        simp only [hval] at h
        match hskip : skipWs r1 with
        | [] => simp only [hskip] at h; cases h
        | c2 :: r2 =>
          simp only [hskip] at h
          by_cases hc2 : c2 = ','
          · rw [if_pos hc2] at h
            match hskipr2 : skipWs r2 with
            | [] =>
              rw [hskipr2, parseItems_nil] at h
              cases h
            | d :: dr =>
              rw [hskipr2] at h
              have hg0 : numGuard v0 r1 := by
                intro lex hv
                refine skipWs_head_not_sensitive hskip ?_
                rw [hc2]
                rfl
              have hvapp := ihv _ t _ _ hval hg0
              have hiapp := ihi _ (acc ++ [v0]) t _ _ h
              simp only [List.cons_append] at hiapp
              rw [parseItems.eq_2]
              simp only [hvapp]
              simp only [skipWs_append hskip]
              rw [if_pos hc2]
              simp only [skipWs_append hskipr2]
              exact hiapp
          · rw [if_neg hc2] at h
            by_cases hc2b : c2 = ']'
            · rw [if_pos hc2b] at h
              cases h
              have hg0 : numGuard v0 r1 := by
                intro lex hv
                refine skipWs_head_not_sensitive hskip ?_
                rw [hc2b]
                rfl
              have hvapp := ihv _ t _ _ hval hg0
              rw [parseItems.eq_2]
              simp only [hvapp]
              simp only [skipWs_append hskip]
              rw [if_neg hc2, if_pos hc2b]
            · rw [if_neg hc2b] at h
              cases h

theorem raw_decode_append {p t : List Char} {v : Json} {r : List Char}
    (h : raw_decode p = some (v, r)) (hg : numGuard v r) :
    raw_decode (p ++ t) = some (v, r ++ t) := by
  unfold raw_decode at h ⊢
  have h2 := (parse_append_all (2 * p.length + 2)).1 p t v r h hg
  refine parseValue_mono_le ?_ h2
  simp only [List.length_append]
  omega

theorem parseValue_obj_head : ∀ (f : Nat) (s : List Char)
    (ms : List (List Char × Json)) (r : List Char),
    parseValue f s = some (Json.obj ms, r) → ∃ rest, s = lbrace :: rest := by
  intro f s ms r h
  match f, s with
  | 0, s => simp [parseValue] at h
  | Nat.succ f, [] => simp [parseValue] at h
  | Nat.succ f, c :: rest =>
    by_cases hc1 : c = lbrace
    · exact ⟨rest, by rw [hc1]⟩
    · exfalso
      simp only [parseValue] at h
      rw [if_neg hc1] at h
      by_cases hc2 : c = '['
      · rw [if_pos hc2] at h
        match hskip : skipWs rest with
        | [] => simp only [hskip] at h; cases h
        | c2 :: r2 =>
          simp only [hskip] at h
          by_cases hc3 : c2 = ']'
          · rw [if_pos hc3] at h
            simp at h
          · rw [if_neg hc3] at h
            obtain ⟨xs, hxs⟩ := parseItems_arr _ _ _ _ _ h
            simp at hxs
      · rw [if_neg hc2] at h
        by_cases hc3 : c = '"'
        · rw [if_pos hc3] at h
          match hlex : lex_string rest with
          | some (content, r0) => simp only [hlex] at h; simp at h
          | none => simp only [hlex] at h; cases h
        · rw [if_neg hc3] at h
          by_cases hc4 : c = 't'
          · rw [if_pos hc4] at h
            match hml : matchLit "rue".data rest with
            | some r0 => simp only [hml] at h; simp at h
            | none => simp only [hml] at h; cases h
          · rw [if_neg hc4] at h
            by_cases hc5 : c = 'f'
            · rw [if_pos hc5] at h
              match hml : matchLit "alse".data rest with
              | some r0 => simp only [hml] at h; simp at h
              | none => simp only [hml] at h; cases h
            · rw [if_neg hc5] at h
              by_cases hc6 : c = 'n'
              · rw [if_pos hc6] at h
                match hml : matchLit "ull".data rest with
                | some r0 => simp only [hml] at h; simp at h
                | none => simp only [hml] at h; cases h
              · rw [if_neg hc6] at h
                by_cases hc7 : c = 'N'
                · rw [if_pos hc7] at h
                  match hml : matchLit "aN".data rest with
                  | some r0 => simp only [hml] at h; simp at h
                  | none => simp only [hml] at h; cases h
                · rw [if_neg hc7] at h
                  by_cases hc8 : c = 'I'
                  · rw [if_pos hc8] at h
                    match hml : matchLit "nfinity".data rest with
                    | some r0 => simp only [hml] at h; simp at h
                    | none => simp only [hml] at h; cases h
                  · rw [if_neg hc8] at h
                    by_cases hc9 : (c = '-' || isJsonDigit c) = true
                    · rw [if_pos hc9] at h
                      match hnum : lexNumber (c :: rest) with
                      | some (v0, r0) =>
                        simp only [hnum] at h
                        obtain ⟨lex0, hlex0⟩ := lexNumber_shape hnum
                        rw [hlex0] at h
                        simp at h
                      | none =>
                        simp only [hnum] at h
                        match hml : matchLit "Infinity".data rest with
                        | some r0 =>
                          simp only [hml] at h
                          by_cases hcm : c = '-'
                          · rw [if_pos hcm] at h; simp at h
                          · rw [if_neg hcm] at h; cases h
                        | none => simp only [hml] at h; cases h
                    · rw [if_neg hc9] at h
                      cases h

theorem parseValue_lbrace_obj : ∀ (f : Nat) (rest : List Char) (v : Json)
    (r : List Char), parseValue f (lbrace :: rest) = some (v, r) →
    ∃ ms, v = Json.obj ms := by
  intro f rest v r h
  match f with
  | 0 => simp [parseValue] at h
  | Nat.succ f =>
    simp only [parseValue] at h
    rw [if_pos trivial] at h
    match hskip : skipWs rest with
    | [] => simp only [hskip] at h; cases h
    | c2 :: r2 =>
      simp only [hskip] at h
      by_cases hc2 : c2 = rbrace
      · rw [if_pos hc2] at h
        cases h
        exact ⟨[], rfl⟩
      · rw [if_neg hc2] at h
        exact parseMembers_obj _ _ _ _ _ h

theorem raw_decode_obj_head {p : List Char} {ms : List (List Char × Json)}
    {r : List Char} (h : raw_decode p = some (Json.obj ms, r)) :
    ∃ p2, p = lbrace :: p2 :=
  parseValue_obj_head _ _ _ _ h

/-- A strict prefix of a buffer from which raw_decode consumes a whole
object never decodes: the decode attempt on the partial buffer fails
with a JSONDecodeError, which the listener treats as an incomplete
message. -/
theorem raw_decode_prefix_none {q u : List Char}
    {ms : List (List Char × Json)}
    (hfull : raw_decode (q ++ u) = some (Json.obj ms, []))
    (hu : u ≠ []) : raw_decode q = none := by
  match hq : raw_decode q with
  | none => rfl
  | some (w, rw) =>
    exfalso
    obtain ⟨p2, hp2⟩ := raw_decode_obj_head hfull
    match q, hp2 with
    | [], _ =>
      have hnil : raw_decode ([] : List Char) = none := rfl
      rw [hnil] at hq
      cases hq
    | qc :: q2, hp2 =>
      have hqc : qc = lbrace := by
        have := hp2
        rw [List.cons_append] at this
        injection this with h1 h2
      subst hqc
      obtain ⟨ms2, hms2⟩ := parseValue_lbrace_obj _ _ _ _ hq
      subst hms2
      have hg : numGuard (Json.obj ms2) rw := by
        intro lex hlex
        simp at hlex
      have happ := @raw_decode_append (lbrace :: q2) u (Json.obj ms2) rw hq hg
      rw [hfull] at happ
      injection happ with h1
      rw [Prod.mk.injEq] at h1
      obtain ⟨_, h2⟩ := h1
      exact hu (List.append_eq_nil.mp h2.symm).2

/-! ## Behaviour of the listener inner decode loop -/

theorem drainLoop_nil (f : Nat) (acc : List Deposit) :
    drainLoop f [] acc = ⟨acc, [], none⟩ := by
  cases f <;> rfl

theorem drainLoop_fail {buf : List Char} (hdec : raw_decode buf = none) :
    ∀ (f : Nat) (acc : List Deposit), drainLoop f buf acc = ⟨acc, buf, none⟩ := by
  intro f acc
  cases f with
  | zero => rfl
  | succ f =>
    match buf with
    | [] => rfl
    | c :: rest => simp [drainLoop, hdec]

theorem drainLoop_one {p : List Char} {v : Json} {b : Bool}
    (hdec : raw_decode p = some (v, []))
    (hcls : classifySubscription v = Except.ok b) :
    ∀ (f : Nat) (acc : List Deposit),
    drainLoop (f + 1) p acc = ⟨acc ++ [⟨v, b⟩], [], none⟩ := by
  intro f acc
  match p with
  | [] =>
    rw [show raw_decode ([] : List Char) = none from rfl] at hdec
    cases hdec
  | c :: rest =>
    simp only [drainLoop, hdec, hcls]
    rw [show lstripPy [] = [] from rfl]
    exact drainLoop_nil f _

theorem lstripPy_not_ws {c : Char} {r : List Char} (h : pyWsChar c = false) :
    lstripPy (c :: r) = c :: r := by
  simp [lstripPy, h]

theorem pyWsChar_lbrace : pyWsChar lbrace = false := rfl

theorem classify_obj (ms : List (List Char × Json)) :
    ∃ b, classifySubscription (Json.obj ms) = Except.ok b := by
  match hd : dictGet ms methodKey with
  | none => exact ⟨false, by simp [classifySubscription, jsonGetMethod, hd]⟩
  | some Json.null =>
    exact ⟨false, by simp [classifySubscription, jsonGetMethod, hd]⟩
  | some (Json.bool b0) =>
    exact ⟨false, by simp [classifySubscription, jsonGetMethod, hd]⟩
  | some (Json.num l) =>
    exact ⟨false, by simp [classifySubscription, jsonGetMethod, hd]⟩
  | some (Json.str s) =>
    exact ⟨decide (s = ethSubscription),
      by simp [classifySubscription, jsonGetMethod, hd]⟩
  | some (Json.arr xs) =>
    exact ⟨false, by simp [classifySubscription, jsonGetMethod, hd]⟩
  | some (Json.obj m2) =>
    exact ⟨false, by simp [classifySubscription, jsonGetMethod, hd]⟩

theorem drainLoop_two {p1 p2 : List Char} {v1 v2 : Json} {b1 b2 : Bool}
    {ms1 ms2 : List (List Char × Json)}
    (hv1 : v1 = Json.obj ms1) (hv2 : v2 = Json.obj ms2)
    (h1 : raw_decode p1 = some (v1, []))
    (h2 : raw_decode p2 = some (v2, []))
    (hc1 : classifySubscription v1 = Except.ok b1)
    (hc2 : classifySubscription v2 = Except.ok b2) :
    ∀ (f : Nat) (acc : List Deposit),
    drainLoop (f + 2) (p1 ++ p2) acc
      = ⟨acc ++ [⟨v1, b1⟩, ⟨v2, b2⟩], [], none⟩ := by
  intro f acc
  obtain ⟨p1t, hp1⟩ := raw_decode_obj_head (hv1 ▸ h1)
  obtain ⟨p2t, hp2⟩ := raw_decode_obj_head (hv2 ▸ h2)
  have hg1 : numGuard v1 [] := by
    intro lex hlex
    rw [hv1] at hlex
    simp at hlex
  have happ := @raw_decode_append p1 p2 v1 [] h1 hg1
  rw [List.nil_append] at happ
  subst hp1
  rw [List.cons_append]
  simp only [List.cons_append] at happ
  rw [drainLoop.eq_3]
  simp only [happ, hc1]
  have hlst : lstripPy p2 = p2 := by
    rw [hp2]
    exact lstripPy_not_ws pyWsChar_lbrace
  rw [hlst]
  have hone := drainLoop_one h2 hc2 f (acc ++ [⟨v1, b1⟩])
  rw [hone]
  simp

theorem join_nil_all {L : List (List Char)} (h : L.flatten = []) :
    ∀ x ∈ L, x = [] := by
  induction L with
  | nil => intro x hx; cases hx
  | cons a L2 ih =>
    intro x hx
    simp only [List.flatten_cons] at h
    obtain ⟨ha, hL⟩ := List.append_eq_nil.mp h
    rcases List.mem_cons.mp hx with rfl | hx2
    · exact ha
    · exact ih hL x hx2

theorem runChunks_empties (silence : Bool) (ds : List Deposit) (logs : Nat) :
    ∀ cs : List (List Char), (∀ c ∈ cs, c = ([] : List Char)) →
    runChunks silence ⟨[], ds, logs⟩ cs = Except.ok ⟨[], ds, logs⟩ := by
  intro cs
  induction cs with
  | nil => intro _; rfl
  | cons c cs2 ih =>
    intro hcs
    have hc : c = [] := hcs c (by simp)
    subst hc
    have hstep : listenerStep silence ⟨[], ds, logs⟩ (ReadEvent.chunk [])
        = StepOut.cont ⟨[], ds, logs⟩ := by
      simp [listenerStep, lstripPy, drainLoop_nil]
    simp only [runChunks, hstep]
    exact ih (fun x hx => hcs x (List.mem_cons_of_mem _ hx))

theorem runChunks_split (silence : Bool) {v : Json}
    {ms : List (List Char × Json)} {b : Bool} {p : List Char}
    (hv : v = Json.obj ms) (hdec : raw_decode p = some (v, []))
    (hcls : classifySubscription v = Except.ok b) :
    ∀ (cs : List (List Char)) (done : List Char) (ds : List Deposit)
      (logs : Nat), cs ≠ [] → done ++ cs.flatten = p →
      (∀ c ∈ cs, lstripPy c = c) →
      runChunks silence ⟨done, ds, logs⟩ cs
        = Except.ok ⟨[], ds ++ [⟨v, b⟩], logs⟩ := by
  intro cs
  induction cs with
  | nil => intro done ds logs hne; exact absurd rfl hne
  | cons c cs2 ih =>
    intro done ds logs _ hjoin hlst
    have hlc : lstripPy c = c := hlst c (by simp)
    by_cases hj2 : cs2.flatten = []
    · have hdc : done ++ c = p := by
        simp only [List.flatten_cons, hj2, List.append_nil] at hjoin
        exact hjoin
      have hstep : listenerStep silence ⟨done, ds, logs⟩ (ReadEvent.chunk c)
          = StepOut.cont ⟨[], ds ++ [⟨v, b⟩], logs⟩ := by
        have hdrain := drainLoop_one hdec hcls p.length ([] : List Deposit)
        simp [listenerStep, hlc, hdc, hdrain]
      simp only [runChunks, hstep]
      exact runChunks_empties silence _ _ cs2 (join_nil_all hj2)
    · have hbufp : (done ++ c) ++ cs2.flatten = p := by
        simpa [List.append_assoc] using hjoin
      have hfull : raw_decode ((done ++ c) ++ cs2.flatten)
          = some (Json.obj ms, []) := by
        rw [hbufp, ← hv]
        exact hdec
      have hfail : raw_decode (done ++ c) = none :=
        raw_decode_prefix_none hfull hj2
      have hstep : listenerStep silence ⟨done, ds, logs⟩ (ReadEvent.chunk c)
          = StepOut.cont ⟨done ++ c, ds, logs⟩ := by
        simp [listenerStep, hlc, drainLoop_fail hfail]
      simp only [runChunks, hstep]
      refine ih (done ++ c) ds logs ?_ hbufp
        (fun x hx => hlst x (List.mem_cons_of_mem _ hx))
      intro he
      exact hj2 (by rw [he]; rfl)

/-! ## Claim C1 -/

/-- Claim C1, counterexample.  The claim states that a payload split
across read chunks deposits the same decoded result as the payload
delivered whole.  It is false on the code: the listener lstrips every
read chunk before appending it to the buffer (line 221), so a split
whose second chunk begins with whitespace lying inside a string
literal of the payload corrupts the message.  Concretely, the payload
is an object whose member m is the string with a leading space; split
after the opening quote, the delivered value loses that space, while
the whole-payload delivery keeps it. -/
theorem C1_counterexample :
    "\x7b\"m\":\"".data ++ " a\"\x7d".data = "\x7b\"m\":\" a\"\x7d".data
    ∧ runChunks false initialLState ["\x7b\"m\":\"".data, " a\"\x7d".data]
      = Except.ok ⟨[], [⟨Json.obj [("m".data, Json.str "a".data)], false⟩], 0⟩
    ∧ runChunks false initialLState ["\x7b\"m\":\" a\"\x7d".data]
      = Except.ok ⟨[], [⟨Json.obj [("m".data, Json.str " a".data)], false⟩], 0⟩
    ∧ runChunks false initialLState ["\x7b\"m\":\"".data, " a\"\x7d".data]
      ≠ runChunks false initialLState ["\x7b\"m\":\" a\"\x7d".data] := by
  refine ⟨rfl, rfl, rfl, ?_⟩
  intro h
  rw [show runChunks false initialLState ["\x7b\"m\":\"".data, " a\"\x7d".data]
    = Except.ok ⟨[], [⟨Json.obj [("m".data, Json.str "a".data)], false⟩], 0⟩
    from rfl] at h
  rw [show runChunks false initialLState ["\x7b\"m\":\" a\"\x7d".data]
    = Except.ok ⟨[], [⟨Json.obj [("m".data, Json.str " a".data)], false⟩], 0⟩
    from rfl] at h
  simp at h

/-- Claim C1, amended.  The amendment adds the hypothesis, forced by
the counterexample, that no read chunk starts with whitespace (the
per-chunk lstrip of line 221 is then the identity).  First conjunct:
an object payload assembled from any such chunk split deposits into
the request processor exactly the one decoded message, identically to
the whole-payload delivery.  Second conjunct: two complete object
messages concatenated in a single read chunk deposit exactly their
two decoded results, in arrival order. -/
theorem C1_amended :
    (∀ (silence : Bool) (v : Json) (ms : List (List Char × Json))
        (p : List Char) (chunks : List (List Char)),
      v = Json.obj ms →
      raw_decode p = some (v, []) →
      chunks.flatten = p →
      (∀ c ∈ chunks, lstripPy c = c) →
      ∃ b, classifySubscription v = Except.ok b ∧
        runChunks silence initialLState chunks
          = Except.ok ⟨[], [⟨v, b⟩], 0⟩ ∧
        runChunks silence initialLState [p]
          = Except.ok ⟨[], [⟨v, b⟩], 0⟩)
    ∧ (∀ (silence : Bool) (v1 v2 : Json)
        (ms1 ms2 : List (List Char × Json)) (p1 p2 : List Char),
      v1 = Json.obj ms1 → v2 = Json.obj ms2 →
      raw_decode p1 = some (v1, []) →
      raw_decode p2 = some (v2, []) →
      ∃ b1 b2, classifySubscription v1 = Except.ok b1 ∧
        classifySubscription v2 = Except.ok b2 ∧
        runChunks silence initialLState [p1 ++ p2]
          = Except.ok ⟨[], [⟨v1, b1⟩, ⟨v2, b2⟩], 0⟩) := by
  constructor
  · intro silence v ms p chunks hv hdec hjoin hlst
    obtain ⟨b, hb⟩ := hv ▸ classify_obj ms
    refine ⟨b, hb, ?_, ?_⟩
    · have hne : chunks ≠ [] := by
        intro he
        subst he
        rw [← hjoin] at hdec
        rw [show raw_decode (([] : List (List Char)).flatten) = none from rfl]
          at hdec
        cases hdec
      have := runChunks_split silence hv hdec hb chunks [] [] 0 hne
        (by simpa using hjoin) hlst
      simpa [initialLState] using this
    · obtain ⟨p2, hp2⟩ := raw_decode_obj_head (hv ▸ hdec)
      have hlp : lstripPy p = p := by
        rw [hp2]
        exact lstripPy_not_ws pyWsChar_lbrace
      have := runChunks_split silence hv hdec hb [p] [] [] 0 (by simp)
        (by simp) (by intro c hc; rw [List.mem_singleton.mp hc]; exact hlp)
      simpa [initialLState] using this
  · intro silence v1 v2 ms1 ms2 p1 p2 hv1 hv2 h1 h2
    obtain ⟨b1, hb1⟩ := hv1 ▸ classify_obj ms1
    obtain ⟨b2, hb2⟩ := hv2 ▸ classify_obj ms2
    refine ⟨b1, b2, hb1, hb2, ?_⟩
    obtain ⟨p1t, hp1⟩ := raw_decode_obj_head (hv1 ▸ h1)
    obtain ⟨p2t, hp2⟩ := raw_decode_obj_head (hv2 ▸ h2)
    have hlstr : lstripPy (p1 ++ p2) = p1 ++ p2 := by
      rw [hp1, List.cons_append]
      exact lstripPy_not_ws pyWsChar_lbrace
    have hk : (p1 ++ p2).length + 1 = (p1t.length + p2.length) + 2 := by
      rw [hp1]
      simp
    have hdrain : drainLoop ((p1 ++ p2).length + 1) (p1 ++ p2) []
        = ⟨[⟨v1, b1⟩, ⟨v2, b2⟩], [], none⟩ := by
      rw [hk]
      have := drainLoop_two hv1 hv2 h1 h2 hb1 hb2 (p1t.length + p2.length) []
      simpa using this
    have hstep : listenerStep silence initialLState
        (ReadEvent.chunk (p1 ++ p2))
        = StepOut.cont ⟨[], [⟨v1, b1⟩, ⟨v2, b2⟩], 0⟩ := by
      simp only [listenerStep]
      rw [show initialLState.buffer ++ lstripPy (p1 ++ p2) = p1 ++ p2 from
        by simp [initialLState, hlstr]]
      rw [hdrain]
      rfl
    simp only [runChunks, hstep]

/-- Claim C1, witness for the amended theorem: a concrete object
payload split in two whitespace-free chunks deposits identically to
the whole payload, and two concrete concatenated objects deposit two
results in order. -/
theorem C1_amended_witness :
    runChunks false initialLState ["\x7b\"m\"".data, ":1\x7d".data]
      = runChunks false initialLState ["\x7b\"m\":1\x7d".data]
    ∧ runChunks false initialLState ["\x7b\x7d".data ++ "\x7b\"a\":1\x7d".data]
      = Except.ok ⟨[], [⟨Json.obj [], false⟩,
          ⟨Json.obj [("a".data, Json.num ['1'])], false⟩], 0⟩ := by
  constructor
  · obtain ⟨b, hb, hc1, hc2⟩ := C1_amended.1 false
      (Json.obj [("m".data, Json.num ['1'])]) [("m".data, Json.num ['1'])]
      "\x7b\"m\":1\x7d".data ["\x7b\"m\"".data, ":1\x7d".data]
      rfl rfl rfl (by decide)
    exact hc1.trans hc2.symm
  · obtain ⟨b1, b2, hb1, hb2, hrun⟩ := C1_amended.2 false
      (Json.obj []) (Json.obj [("a".data, Json.num ['1'])])
      [] [("a".data, Json.num ['1'])]
      "\x7b\x7d".data "\x7b\"a\":1\x7d".data rfl rfl rfl rfl
    have hb1c : b1 = false := by
      have h0 : classifySubscription (Json.obj []) = Except.ok false := rfl
      rw [h0] at hb1
      injection hb1 with hx
      exact hx.symm
    have hb2c : b2 = false := by
      have h0 : classifySubscription
          (Json.obj [("a".data, Json.num ['1'])]) = Except.ok false := rfl
      rw [h0] at hb2
      injection hb2 with hx
      exact hx.symm
    rw [hb1c, hb2c] at hrun
    exact hrun

/-! ## Claims C5 and C6 -/

theorem raw_decode_at_sign (s : List Char) :
    raw_decode ('@' :: s) = none := by
  unfold raw_decode
  rw [parseValue.eq_3]
  rw [if_neg (by decide), if_neg (by decide), if_neg (by decide),
    if_neg (by decide), if_neg (by decide), if_neg (by decide),
    if_neg (by decide), if_neg (by decide), if_neg (by decide)]

theorem runChunks_stall : ∀ (chunks : List (List Char)) (silence : Bool)
    (rest : List Char) (ds : List Deposit) (logs : Nat),
    runChunks silence ⟨'@' :: rest, ds, logs⟩ chunks
      = Except.ok ⟨('@' :: rest) ++ (chunks.map lstripPy).flatten, ds, logs⟩ := by
  intro chunks
  induction chunks with
  | nil => intro silence rest ds logs; simp [runChunks]
  | cons c cs ih =>
    intro silence rest ds logs
    have hstep : listenerStep silence ⟨'@' :: rest, ds, logs⟩
        (ReadEvent.chunk c)
        = StepOut.cont ⟨'@' :: (rest ++ lstripPy c), ds, logs⟩ := by
      have hfail := drainLoop_fail (raw_decode_at_sign (rest ++ lstripPy c))
      simp [listenerStep, hfail]
    simp only [runChunks, hstep]
    rw [ih silence (rest ++ lstripPy c) ds logs]
    simp

/-- Claim C5: the code is wrong where the claim describes the intended
design.  A buffer whose head can begin no JSON value is genuinely
malformed, yet the listener treats it exactly like an incomplete
value: raw_decode fails, the inner loop breaks, nothing is logged and
the buffer is never reset, so the malformed head stalls the listener
forever while the buffer grows without bound; no later message is ever
deposited, although the listener task itself stays alive.  First
conjunct: the concrete failing input (a malformed byte followed by a
complete valid message) deposits nothing, logs nothing, and leaves the
malformed buffer in place.  Second conjunct: from any buffer with the
malformed head, any further chunk sequence deposits nothing, logs
nothing and only grows the buffer, with the listener still running. -/
theorem C5_bug :
    runChunks false initialLState [['@'], "\x7b\"a\":1\x7d".data]
      = Except.ok ⟨'@' :: "\x7b\"a\":1\x7d".data, [], 0⟩
    ∧ (∀ (chunks : List (List Char)) (silence : Bool) (rest : List Char)
        (ds : List Deposit) (logs : Nat),
        runChunks silence ⟨'@' :: rest, ds, logs⟩ chunks
          = Except.ok ⟨('@' :: rest) ++ (chunks.map lstripPy).flatten, ds,
              logs⟩) :=
  ⟨rfl, fun chunks silence rest ds logs =>
    runChunks_stall chunks silence rest ds logs⟩

/-- Claim C6: on an unhandled exception in the read/classify pipeline,
the strict configuration (silence_listener_task_exceptions false)
cancels every task on the event loop (a superset of the sibling tasks
of the connection) and propagates the exception, while the lenient
configuration logs the error, resets the buffer to empty, and
continues the loop.  The first two conjuncts cover an exception from
the read itself; the third covers an exception from classifying a
decoded message, under both configurations. -/
theorem C6_policy :
    (∀ (st : LState) (e : PyExc),
      listenerStep false st (ReadEvent.readErr e) = StepOut.fatal e true)
    ∧ (∀ (st : LState) (e : PyExc),
      listenerStep true st (ReadEvent.readErr e)
        = StepOut.cont ⟨[], st.deposits, st.errorLogs + 1⟩)
    ∧ (∀ (silence : Bool) (st : LState) (s : List Char) (e : PyExc),
      (drainLoop ((st.buffer ++ lstripPy s).length + 1)
          (st.buffer ++ lstripPy s) []).exc = some e →
      listenerStep silence st (ReadEvent.chunk s)
        = if silence then
            StepOut.cont ⟨[], st.deposits
              ++ (drainLoop ((st.buffer ++ lstripPy s).length + 1)
                  (st.buffer ++ lstripPy s) []).deposits,
              st.errorLogs + 1⟩
          else StepOut.fatal e true) := by
  refine ⟨fun st e => rfl, fun st e => rfl, ?_⟩
  intro silence st s e hexc
  simp only [List.length_append] at hexc
  cases silence with
  | false => simp [listenerStep, List.length_append, hexc]
  | true => simp [listenerStep, List.length_append, hexc]

/-- Claim C6, witness: a failed read under each configuration, and a
classification error (a decoded bare number has no get attribute) with
the strict configuration, at concrete inputs. -/
theorem C6_policy_witness :
    listenerStep false initialLState (ReadEvent.readErr (PyExc.osError 32))
      = StepOut.fatal (PyExc.osError 32) true
    ∧ listenerStep true initialLState (ReadEvent.readErr (PyExc.osError 32))
      = StepOut.cont ⟨[], [], 1⟩
    ∧ listenerStep false initialLState (ReadEvent.chunk ['1'])
      = StepOut.fatal PyExc.attributeError true :=
  ⟨C6_policy.1 initialLState (PyExc.osError 32),
    C6_policy.2.1 initialLState (PyExc.osError 32),
    by
      have h := C6_policy.2.2 false initialLState ['1'] PyExc.attributeError
        rfl
      simpa using h⟩

/-! ## Claim C2 -/

theorem connectIter_spec (endpoint : String) (maxR : Nat) :
    ∀ (rem done : Nat) (backoff : ℚ), 1 ≤ rem →
    connectIter endpoint maxR done rem backoff
      = ⟨done + rem,
          (List.range (rem - 1)).map
            (fun i => backoff * backoff_rate_change ^ i),
          some (PyExc.provConnRetriesExceeded endpoint maxR)⟩ := by
  intro rem
  induction rem with
  | zero => intro done backoff h; omega
  | succ r ih =>
    intro done backoff _
    by_cases hr : r = 0
    · subst hr
      simp [connectIter]
    · have h1r : 1 ≤ r := Nat.one_le_iff_ne_zero.mpr hr
      rw [show connectIter endpoint maxR done (r + 1) backoff
          = (if r = 0 then
              ⟨done + 1, [],
                some (PyExc.provConnRetriesExceeded endpoint maxR)⟩
            else
              let t := connectIter endpoint maxR (done + 1) r
                (backoff * backoff_rate_change)
              ⟨t.attempts, backoff :: t.delays, t.raised⟩) from rfl]
      rw [if_neg hr]
      rw [ih (done + 1) (backoff * backoff_rate_change) h1r]
      dsimp only
      rw [ConnectTrace.mk.injEq]
      refine ⟨by omega, ?_, rfl⟩
      · obtain ⟨r2, rfl⟩ : ∃ r2, r = r2 + 1 := ⟨r - 1, by omega⟩
        rw [show r2 + 1 + 1 - 1 = r2 + 1 from rfl,
          show r2 + 1 - 1 = r2 from rfl]
        rw [List.range_succ_eq_map]
        rw [List.map_cons]
        rw [pow_zero, mul_one]
        rw [List.map_map]
        refine congrArg _ ?_
        refine List.map_congr_left ?_
        intro i _
        simp only [Function.comp_apply]
        rw [pow_succ]
        ring


/-- C2: counterexample. The spec says connect retries up to
max_connection_retries times, multiplying the backoff by 1.75 after each
failure, and finally raises ProviderConnectionError naming the endpoint and
the retry count. With max_connection_retries = 0 the loop body is never
entered, so no connection attempt is made and nothing is raised at all:
the trace records 0 attempts, no delays, and raised = none, contradicting
the unconditional final raise the spec describes. -/
theorem C2_counterexample :
    (connectTrace "/tmp/node.ipc" 0).attempts = 0
    ∧ (connectTrace "/tmp/node.ipc" 0).delays = []
    ∧ (connectTrace "/tmp/node.ipc" 0).raised = none := by
  exact ⟨rfl, rfl, rfl⟩

/-- C2 (amended): for max_connection_retries = N ≥ 1, connect makes exactly
N failing attempts, sleeps N - 1 times with delays forming the geometric
sequence 1.75 * 1.75 ^ i (first delay 1.75 seconds, each subsequent delay
1.75 times the previous), and then raises ProviderConnectionError carrying
the endpoint and N. For N = 0 no attempt is made and nothing is raised. -/
theorem C2_amended (endpoint : String) (N : Nat) (h : 1 ≤ N) :
    (connectTrace endpoint N).attempts = N
    ∧ (connectTrace endpoint N).raised
        = some (PyExc.provConnRetriesExceeded endpoint N)
    ∧ (connectTrace endpoint N).delays
        = (List.range (N - 1)).map
            (fun i => initial_backoff_time * backoff_rate_change ^ i)
    ∧ (connectTrace endpoint N).delays.length = N - 1
    ∧ (∀ i, i + 1 < (connectTrace endpoint N).delays.length →
        (connectTrace endpoint N).delays.getD (i + 1) 0
          = (connectTrace endpoint N).delays.getD i 0
              * backoff_rate_change) := by
  have hiter := connectIter_spec endpoint N N 0 initial_backoff_time h
  have htr : connectTrace endpoint N
      = ⟨N, (List.range (N - 1)).map
          (fun i => initial_backoff_time * backoff_rate_change ^ i),
        some (PyExc.provConnRetriesExceeded endpoint N)⟩ := by
    rw [connectTrace, hiter]
    rw [ConnectTrace.mk.injEq]
    exact ⟨by omega, rfl, rfl⟩
  refine ⟨by rw [htr], by rw [htr], by rw [htr], ?_, ?_⟩
  · rw [htr]
    simp only [List.length_map, List.length_range]
  · intro i hlen
    rw [htr] at hlen ⊢
    simp only [List.length_map, List.length_range] at hlen
    have hi1 : i + 1 < N - 1 := hlen
    have hi : i < N - 1 := by omega
    rw [List.getD_eq_getElem?_getD, List.getD_eq_getElem?_getD]
    rw [List.getElem?_map, List.getElem?_map]
    rw [List.getElem?_range hi1, List.getElem?_range hi]
    simp [pow_succ]
    ring

theorem C2_amended_witness :
    1 ≤ 3
    ∧ (connectTrace "/tmp/node.ipc" 3).attempts = 3
    ∧ (connectTrace "/tmp/node.ipc" 3).raised
        = some (PyExc.provConnRetriesExceeded "/tmp/node.ipc" 3)
    ∧ (connectTrace "/tmp/node.ipc" 3).delays.getD 0 0 = 7 / 4
    ∧ (connectTrace "/tmp/node.ipc" 3).delays.getD 1 0
        = (connectTrace "/tmp/node.ipc" 3).delays.getD 0 0
            * backoff_rate_change := by
  have h := C2_amended "/tmp/node.ipc" 3 (by decide)
  refine ⟨by decide, h.1, h.2.1, ?_, ?_⟩
  · rw [h.2.2.1]
    norm_num [initial_backoff_time]
  · exact h.2.2.2.2 0 (by rw [h.2.2.2.1]; decide)


/-! ## Claim C3 -/

/-- C3: counterexample. The spec says that when the retried write (after
the broken-pipe reset) also fails, the ORIGINAL broken-pipe error is the
one surfaced; and that any non-broken-pipe failure propagates unchanged
with no retry. In the code the bare `raise` (line 165) sits inside the
second try, so the retry failure supersedes the original EPIPE error, and
an OSError with any other errno falls off the end of the except block
(no else-clause, line 160) and is swallowed: execution proceeds to the
response wait instead of propagating. Here errno 9 is EBADF and errno 13
is EACCES. -/
theorem C3_counterexample :
    makeRequestWrite (some (PyExc.osError EPIPE)) (some (PyExc.osError 9))
      = WritePhase.raised (PyExc.osError 9) 2 true
    ∧ PyExc.osError 9 ≠ PyExc.osError EPIPE
    ∧ makeRequestWrite (some (PyExc.osError 13)) none
        = WritePhase.proceeded 1 false := by
  refine ⟨rfl, by decide, rfl⟩

/-- C3 (amended): a successful write proceeds with one attempt and no
reset; a write failing with OSError errno EPIPE triggers exactly one
reset-and-retry, after which a successful retry proceeds while a failing
retry surfaces the RETRY error (not the original); a write failing with
OSError of any other errno is swallowed (no retry, no reset, execution
proceeds to the response wait); a non-OSError failure propagates
unchanged with no retry. -/
theorem C3_amended :
    (∀ second, makeRequestWrite none second = WritePhase.proceeded 1 false)
    ∧ makeRequestWrite (some (PyExc.osError EPIPE)) none
        = WritePhase.proceeded 2 true
    ∧ (∀ e2, makeRequestWrite (some (PyExc.osError EPIPE)) (some e2)
        = WritePhase.raised e2 2 true)
    ∧ (∀ n second, n ≠ EPIPE →
        makeRequestWrite (some (PyExc.osError n)) second
          = WritePhase.proceeded 1 false)
    ∧ (∀ e second, isOSError e = false →
        makeRequestWrite (some e) second = WritePhase.raised e 1 false) := by
  refine ⟨fun second => rfl, rfl, fun e2 => rfl, ?_, ?_⟩
  · intro n second hn
    simp [makeRequestWrite, hn]
  · intro e second he
    match e with
    | PyExc.osError n => simp [isOSError] at he
    | PyExc.provConnNotInitiated => rfl
    | PyExc.provConnRetriesExceeded a b => rfl
    | PyExc.provConnWrapped c => rfl
    | PyExc.timeExhausted a b => rfl
    | PyExc.cancelledError => rfl
    | PyExc.stopAsyncIterationExc => rfl
    | PyExc.attributeError => rfl
    | PyExc.otherError t => rfl

theorem C3_amended_witness :
    ((7 : Int) ≠ EPIPE
      ∧ makeRequestWrite (some (PyExc.osError 7)) (some PyExc.attributeError)
          = WritePhase.proceeded 1 false)
    ∧ (isOSError PyExc.attributeError = false
      ∧ makeRequestWrite (some PyExc.attributeError) none
          = WritePhase.raised PyExc.attributeError 1 false) := by
  refine ⟨⟨by decide, ?_⟩, ⟨rfl, ?_⟩⟩
  · exact C3_amended.2.2.2.1 7 (some PyExc.attributeError) (by decide)
  · exact C3_amended.2.2.2.2 PyExc.attributeError none rfl

/-! ## Claim C4 -/

theorem matchResponseLoop_none (requestId : Nat)
    (cacheAt : Nat → List (Nat × Json)) :
    ∀ (rem n0 : Nat),
    (∀ m, n0 ≤ m → m < n0 + rem →
      cacheLookup (cacheAt m) (generate_cache_key requestId) = none) →
    matchResponseLoop requestId cacheAt n0 rem = none := by
  intro rem
  induction rem with
  | zero => intro n0 _; rfl
  | succ r ih =>
    intro n0 hnone
    rw [matchResponseLoop]
    rw [hnone n0 (Nat.le_refl n0) (by omega)]
    exact ih (n0 + 1) (fun m h1 h2 => hnone m (by omega) (by omega))

theorem matchResponseLoop_found (requestId : Nat)
    (cacheAt : Nat → List (Nat × Json)) (r : Json) :
    ∀ (d rem n0 : Nat), d < rem →
    (∀ m, n0 ≤ m → m < n0 + d →
      cacheLookup (cacheAt m) (generate_cache_key requestId) = none) →
    cacheLookup (cacheAt (n0 + d)) (generate_cache_key requestId) = some r →
    matchResponseLoop requestId cacheAt n0 rem
      = some (r, cachePop (cacheAt (n0 + d))
          (generate_cache_key requestId)) := by
  intro d
  induction d with
  | zero =>
    intro rem n0 hd _ hfound
    obtain ⟨rr, rfl⟩ : ∃ rr, rem = rr + 1 := ⟨rem - 1, by omega⟩
    rw [matchResponseLoop]
    rw [show n0 + 0 = n0 from rfl] at hfound
    rw [hfound]
    rfl
  | succ d2 ih =>
    intro rem n0 hd hnone hfound
    obtain ⟨rr, rfl⟩ : ∃ rr, rem = rr + 1 := ⟨rem - 1, by omega⟩
    rw [matchResponseLoop]
    rw [hnone n0 (Nat.le_refl n0) (by omega)]
    have hfound2 : cacheLookup (cacheAt (n0 + 1 + d2))
        (generate_cache_key requestId) = some r := by
      rw [show n0 + 1 + d2 = n0 + (d2 + 1) from by omega]
      exact hfound
    have := ih rr (n0 + 1) (by omega)
      (fun m h1 h2 => hnone m (by omega) (by omega)) hfound2
    rw [this]
    rw [show n0 + 1 + d2 = n0 + (d2 + 1) from by omega]

/-- C4: confirmed. After a successful write, make_request waits on the
response cache under the key derived from the request id, bounded by
request_timeout (discretised as a budget of polls): if the entry appears
at some poll n within the budget (and not before), it is popped from the
cache and returned together with the cache left behind; if every poll
within the budget comes up empty, TimeExhausted is raised carrying the
request id and the request_timeout that elapsed. -/
theorem C4_response (pollBudget request_timeout requestId : Nat)
    (cacheAt : Nat → List (Nat × Json)) :
    (∀ n r, n < pollBudget →
      (∀ m, m < n →
        cacheLookup (cacheAt m) (generate_cache_key requestId) = none) →
      cacheLookup (cacheAt n) (generate_cache_key requestId) = some r →
      get_response_for_request_id pollBudget request_timeout requestId cacheAt
        = Except.ok (r, cachePop (cacheAt n) (generate_cache_key requestId)))
    ∧ ((∀ m, m < pollBudget →
        cacheLookup (cacheAt m) (generate_cache_key requestId) = none) →
      get_response_for_request_id pollBudget request_timeout requestId cacheAt
        = Except.error (PyExc.timeExhausted requestId request_timeout)) := by
  constructor
  · intro n r hn hbefore hfound
    rw [get_response_for_request_id]
    have := matchResponseLoop_found requestId cacheAt r n pollBudget 0 hn
      (fun m h1 h2 => hbefore m (by omega))
      (by rw [show 0 + n = n from by omega]; exact hfound)
    rw [this]
    rw [show 0 + n = n from by omega]
  · intro hempty
    rw [get_response_for_request_id]
    rw [matchResponseLoop_none requestId cacheAt pollBudget 0
      (fun m h1 h2 => hempty m (by omega))]

theorem C4_response_witness :
    get_response_for_request_id 3 10 5
        (fun m => if m = 1 then [(5, Json.null)] else [])
      = Except.ok (Json.null, [])
    ∧ get_response_for_request_id 2 10 5 (fun _ => [])
      = Except.error (PyExc.timeExhausted 5 10) := by
  constructor
  · exact (C4_response 3 10 5
        (fun m => if m = 1 then [(5, Json.null)] else [])).1 1 Json.null
      (by omega)
      (fun m hm => by
        match m, hm with
        | 0, _ => rfl)
      rfl
  · exact (C4_response 2 10 5 (fun _ => [])).2
      (fun m hm => by
        match m, hm with
        | 0, _ => rfl
        | 1, _ => rfl)

/-! ## Claim C7 -/

/-- C7: counterexample. The spec says disconnect is idempotent and is a
no-op when the provider was never connected. But _message_listener_task
is first assigned inside connect (line 106), so on a never-connected
provider the attribute access of line 134 raises AttributeError, which
nothing catches (only CancelledError and StopAsyncIteration are):
disconnect on a fresh provider raises instead of being a no-op. -/
theorem C7_counterexample :
    disconnect freshProvider = Except.error PyExc.attributeError
    ∧ (PyExc.attributeError ≠ PyExc.cancelledError
        ∧ PyExc.attributeError ≠ PyExc.stopAsyncIterationExc) := by
  exact ⟨rfl, by decide, by decide⟩

/-- C7 (amended): on a connected provider (open, non-closing writer and a
running listener task) disconnect closes and drops the writer, cancels
the listener task, and clears the Request Processor caches, raising
nothing; calling disconnect again on the resulting state is a no-op.
But on a provider that was never connected, disconnect raises
AttributeError because the listener-task attribute was never assigned. -/
theorem C7_amended :
    (∀ rd proc ctr,
      disconnect ⟨some ⟨false⟩, rd, some TaskState.running, proc, ctr⟩
        = Except.ok ⟨none, rd, some TaskState.cancelled, clear_caches, ctr⟩)
    ∧ (∀ rd ctr,
      disconnect ⟨none, rd, some TaskState.cancelled, clear_caches, ctr⟩
        = Except.ok ⟨none, rd, some TaskState.cancelled, clear_caches, ctr⟩)
    ∧ disconnect freshProvider = Except.error PyExc.attributeError := by
  exact ⟨fun rd proc ctr => rfl, fun rd ctr => rfl, rfl⟩

/-! ## Claim C8 -/

/-- C8: counterexample. The spec says is_connected returns False on any
failure of the probe call (or, with show_traceback, re-raises every
failure wrapped in a connection error). But the except clause of line 90
catches only OSError, BrokenPipeError and ProviderConnectionError; a
TimeExhausted raised by the probe (request_timeout elapsing with no
response, entirely possible on a live but unresponsive socket) matches
none of these and propagates as itself under both values of
show_traceback, neither returned as False nor wrapped. -/
theorem C8_counterexample :
    is_connected (Except.error (PyExc.timeExhausted 1 10)) false
      = Except.error (PyExc.timeExhausted 1 10)
    ∧ is_connected (Except.error (PyExc.timeExhausted 1 10)) true
      = Except.error (PyExc.timeExhausted 1 10)
    ∧ PyExc.timeExhausted 1 10
        ≠ PyExc.provConnWrapped (PyExc.timeExhausted 1 10) := by
  refine ⟨rfl, rfl, by decide⟩

/-- C8 (amended): is_connected issues the no-op web3_clientVersion probe;
a successful probe answers True; a probe failing with OSError (including
BrokenPipeError) or ProviderConnectionError answers False, or with
show_traceback is re-raised wrapped in a ProviderConnectionError carrying
the cause; a probe failing with any other exception (e.g. TimeExhausted)
propagates as itself, under either value of show_traceback. -/
theorem C8_amended :
    is_connected_probe = ("web3_clientVersion", [])
    ∧ (∀ j tb, is_connected (Except.ok j) tb = Except.ok true)
    ∧ (∀ e, caughtByIsConnected e = true →
        is_connected (Except.error e) false = Except.ok false)
    ∧ (∀ e, caughtByIsConnected e = true →
        is_connected (Except.error e) true
          = Except.error (PyExc.provConnWrapped e))
    ∧ (∀ e tb, caughtByIsConnected e = false →
        is_connected (Except.error e) tb = Except.error e) := by
  refine ⟨rfl, fun j tb => rfl, ?_, ?_, ?_⟩
  · intro e he
    simp [is_connected, he]
  · intro e he
    simp [is_connected, he]
  · intro e tb he
    simp [is_connected, he]

theorem C8_amended_witness :
    (caughtByIsConnected (PyExc.osError 32) = true
      ∧ is_connected (Except.error (PyExc.osError 32)) false
          = Except.ok false
      ∧ is_connected (Except.error (PyExc.osError 32)) true
          = Except.error (PyExc.provConnWrapped (PyExc.osError 32)))
    ∧ (caughtByIsConnected (PyExc.timeExhausted 1 10) = false
      ∧ is_connected (Except.error (PyExc.timeExhausted 1 10)) true
          = Except.error (PyExc.timeExhausted 1 10)) := by
  refine ⟨⟨rfl, ?_, ?_⟩, ⟨rfl, ?_⟩⟩
  · exact C8_amended.2.2.1 (PyExc.osError 32) rfl
  · exact C8_amended.2.2.2.1 (PyExc.osError 32) rfl
  · exact C8_amended.2.2.2.2 (PyExc.timeExhausted 1 10) true rfl

/-! ## Claim C9 -/

/-- C9: counterexample. The spec says every iteration step ensures
connectivity before yielding. But the is_connected check of line 568
runs once, before the while loop; a resume of the already-started
generator reaches the next yield with no connectivity action at all,
even when the connection is down at that moment (connectedNow = false
here). -/
theorem C9_counterexample :
    aiterStep false GenState.suspended GenEvent.next
      = (GenState.suspended, GenOut.yielded [])
    ∧ AiterAction.probedConnection ∉ ([] : List AiterAction) := by
  refine ⟨rfl, by simp⟩

/-- C9 (amended): the connectivity check runs exactly once, when the
generator is started: the first resume probes the connection and, if it
is down, calls connect, then yields; every later resume yields again
with no connectivity action. An Exception thrown into the suspended
yield is caught by the bare except of line 574 and iteration continues
(the generator yields again); but the sequence is not unconditionally
unbounded: closing the generator, or throwing a BaseException such as
CancelledError, terminates it. -/
theorem C9_amended :
    (∀ c, aiterStep c GenState.notStarted GenEvent.next
      = (GenState.suspended, GenOut.yielded
          (if c then [AiterAction.probedConnection]
           else [AiterAction.probedConnection, AiterAction.calledConnect])))
    ∧ (∀ c, aiterStep c GenState.suspended GenEvent.next
      = (GenState.suspended, GenOut.yielded []))
    ∧ (∀ c e, isExceptionClass e = true →
        aiterStep c GenState.suspended (GenEvent.throwExc e)
          = (GenState.suspended, GenOut.yielded []))
    ∧ (∀ c, aiterStep c GenState.suspended GenEvent.close
      = (GenState.finished, GenOut.stopped none))
    ∧ (∀ c, aiterStep c GenState.suspended
        (GenEvent.throwExc PyExc.cancelledError)
      = (GenState.finished, GenOut.stopped (some PyExc.cancelledError))) := by
  refine ⟨fun c => rfl, fun c => rfl, ?_, fun c => rfl, fun c => rfl⟩
  intro c e he
  simp [aiterStep, he]

theorem C9_amended_witness :
    isExceptionClass (PyExc.otherError 0) = true
    ∧ aiterStep true GenState.suspended
        (GenEvent.throwExc (PyExc.otherError 0))
      = (GenState.suspended, GenOut.yielded []) := by
  exact ⟨rfl, C9_amended.2.2.1 true (PyExc.otherError 0) rfl⟩

/-! ## Claim C10 -/

/-- C10: counterexample. The spec says a make_request before any connect
raises the not-initiated connection error without modifying any provider
state. The error is raised (line 153, before any write), but
encode_rpc_request on line 149 runs first and consumes a request id: the
id allocator of the provider state advances from 0 to 1, so state IS
modified. -/
theorem C10_counterexample :
    makeRequestEntry freshProvider "eth_blockNumber" []
      = (Except.error PyExc.provConnNotInitiated,
          { freshProvider with requestCounter := 1 }, 0)
    ∧ ({ freshProvider with requestCounter := 1 }).requestCounter
        ≠ freshProvider.requestCounter := by
  refine ⟨rfl, by decide⟩

/-- C10 (amended): on any provider whose writer is None, make_request
raises ProviderConnectionError stating the connection has not been
initiated, performing zero socket writes; the only provider state it
modifies is the request id allocator, which encode_rpc_request (line
149, before the writer check of line 151) advances by one. -/
theorem C10_amended (st : ProviderState) (method : String)
    (params : List Json) (hw : st.writer = none) :
    makeRequestEntry st method params
      = (Except.error PyExc.provConnNotInitiated,
          { st with requestCounter := st.requestCounter + 1 }, 0) := by
  rw [makeRequestEntry]
  rw [encode_rpc_request]
  simp [hw]

theorem C10_amended_witness :
    freshProvider.writer = none
    ∧ makeRequestEntry freshProvider "eth_blockNumber" []
      = (Except.error PyExc.provConnNotInitiated,
          { freshProvider with requestCounter := 1 }, 0) := by
  exact ⟨rfl, C10_amended freshProvider "eth_blockNumber" [] rfl⟩

end Web3
